import Mathlib

/-!
Verification of the Agents-With-Intent skill registry, sandbox, supervisor
routing, worker tool loop and skill discovery, as a shallow embedding of
`src/agents_with_intent` in Lean 4.

Paths are modelled as lists of POSIX components (an absolute canonical path
has no "." / ".." components); the filesystem is a finite association list
from canonical paths to entries, with no symbolic links.  Python `dict`s are
modelled as association lists, machine strings as Lean `String`.
-/

namespace AgentsWithIntent

/-! ## String helpers

Lean's built-in `String.startsWith` / `split` / `trim` are implemented on
byte positions; the model re-implements the Python string operations it
needs structurally over the character list, so that witnesses evaluate. -/

/-- Python `s.startswith(pre)`. -/
def pyStartsWith (s pre : String) : Bool := pre.data.isPrefixOf s.data

/-- Python `s.endswith(suf)`. -/
def pyEndsWith (s suf : String) : Bool := suf.data.isSuffixOf s.data

/-- Split a character list at every separator, keeping empty pieces. -/
def chSplit (p : Char -> Bool) : List Char -> List (List Char)
  | [] => [[]]
  | c :: rest =>
    let r := chSplit p rest
    if p c then [] :: r
    else
      match r with
      | h :: t => (c :: h) :: t
      | [] => [[c]]

/-- Python `s.strip()`: drop leading and trailing whitespace. -/
def pyStrip (s : String) : String :=
  String.mk (((s.data.dropWhile Char.isWhitespace).reverse.dropWhile
    Char.isWhitespace).reverse)

/-- ASCII lower-casing of one character (Python `str.lower` restricted to
the ASCII names this code compares). -/
def pyLowerChar (c : Char) : Char :=
  if Char.ofNat 65 <= c && c <= Char.ofNat 90 then Char.ofNat (c.toNat + 32) else c

/-- Python `s.lower()`. -/
def pyLower (s : String) : String := String.mk (s.data.map pyLowerChar)

/-! ## Path model (`pathlib.Path` on POSIX, symlink-free filesystem) -/

/-- A canonical absolute path: components below the filesystem root,
with no `"."` or `".."` entries.  `[]` is the root `/`. -/
abbrev CPath := List String

/-- A raw requested path as handed to `Path(file_path)`: an absolute flag
plus raw components (which may contain `".."` and `"."`). -/
structure RawPath where
  absolute : Bool
  comps : List String
deriving DecidableEq, Repr

/-- `base / p` for `pathlib`: an absolute right operand replaces the base. -/
def joinPath (base : CPath) (p : RawPath) : List String :=
  if p.absolute then p.comps else base ++ p.comps

/-- One step of `Path.resolve()` normalization: `"."` and empty components
vanish, `".."` drops the last component (at the root it stays at the root,
POSIX `/.. = /`), anything else is appended. -/
def normStep (stack : CPath) (c : String) : CPath :=
  if c = "." ∨ c = "" then stack
  else if c = ".." then stack.dropLast
  else stack ++ [c]

/-- `Path.resolve()` on a symlink-free filesystem: left-to-right
normalization of the components. -/
def resolvePath (comps : List String) : CPath := comps.foldl normStep []

/-- `Path(s)` for a raw string: absolute iff it starts with `/`;
components split on `/` with empty pieces dropped. -/
def parsePath (s : String) : RawPath :=
  { absolute := pyStartsWith s "/"
    comps := ((chSplit (fun c => c = Char.ofNat 47) s.data).map String.mk).filter
      (fun c => c ≠ "") }

/-! ## Filesystem model -/

/-- What a canonical path denotes on disk. -/
inductive FsEntry where
  | file (contents : String)
  | dir
deriving DecidableEq, Repr

/-- A finite symlink-free filesystem: canonical path → entry. -/
abbrev Fs := List (CPath × FsEntry)

/-- `candidate.exists() and candidate.is_file()`, plus `read_text` data. -/
def fsFile? (fs : Fs) (p : CPath) : Option String :=
  match fs.lookup p with
  | some (.file c) => some c
  | _ => none

/-! ## `skills/registry.py`: `Skill` and `SkillRegistry.read_skill_resource` -/

/-- `registry.Skill` (frozen dataclass). -/
structure Skill where
  name : String
  description : String
  instructions : String
  path : CPath
  version : Option String := none
deriving DecidableEq, Repr

/-- The registry's internal `_skills` map, name → skill. -/
abbrev SkillMap := List (String × Skill)

/-- Failure modes of `SkillRegistry.read_skill_resource`. -/
inductive ReadErr where
  /-- `get_skill` raised `KeyError` for an unknown name. -/
  | keyError (skillName : String)
  /-- `SecurityError`: the requested path escaped the skill directory. -/
  | securityError (filePath : RawPath) (skillName : String)
  /-- `FileNotFoundError` for the canonical candidate path. -/
  | fileNotFound (candidate : CPath)
deriving DecidableEq, Repr

/-- `SkillRegistry.read_skill_resource` (registry.py lines 68-84): look the
skill up, resolve the skill root, join and canonicalize the requested path,
check prefix containment via `candidate.relative_to(skill_root)`, then
require an existing regular file and return its contents. -/
def readSkillResource (fs : Fs) (skills : SkillMap) (skillName : String)
    (filePath : RawPath) : Except ReadErr String :=
  match skills.lookup skillName with
  | none => .error (.keyError skillName)
  | some skill =>
    let skillRoot := resolvePath skill.path
    let candidate := resolvePath (joinPath skillRoot filePath)
    if skillRoot.isPrefixOf candidate then
      match fsFile? fs candidate with
      | some contents => .ok contents
      | none => .error (.fileNotFound candidate)
    else
      .error (.securityError filePath skillName)

/-- The canonical skill root and candidate path `read_skill_resource`
computes for a request. -/
def sandboxCandidate (skillPath : CPath) (filePath : RawPath) : CPath :=
  resolvePath (joinPath (resolvePath skillPath) filePath)

theorem readSkillResource_eq (fs : Fs) (skills : SkillMap) (skillName : String)
    (filePath : RawPath) (skill : Skill)
    (hskill : skills.lookup skillName = some skill) :
    readSkillResource fs skills skillName filePath =
      (if (resolvePath skill.path).isPrefixOf (sandboxCandidate skill.path filePath) then
        match fsFile? fs (sandboxCandidate skill.path filePath) with
        | some contents => .ok contents
        | none => .error (.fileNotFound (sandboxCandidate skill.path filePath))
      else .error (.securityError filePath skillName)) := by
  simp only [readSkillResource, hskill, sandboxCandidate]

/-- C1 (counterexample): the claim asserts that `read_skill_resource` with the
absolute request `/etc/passwd` fails with a sandbox violation "for any base
directory".  For a skill whose directory is the filesystem root `/`, the
canonical resolution of `/etc/passwd` stays inside the base directory, and the
read succeeds, returning the file contents. -/
theorem readSkillResource_rootBase_counterexample :
    readSkillResource [(["etc", "passwd"], .file "root:x:0:0")]
      [("skill-a",
        { name := "skill-a", description := "d", instructions := "", path := [] })]
      "skill-a" { absolute := true, comps := ["etc", "passwd"] } =
      .ok "root:x:0:0" := rfl

/-- C1 (amended): for every skill in the catalog and request, the candidate is
obtained by joining the request onto the skill directory and canonicalizing;
the read succeeds with the file contents when the canonical candidate is
contained in the canonical skill directory and is a regular file, and fails
with a `SecurityError` sandbox violation whenever the canonical candidate
escapes the skill directory.  In particular, for the spec's skill rooted at
`skills/skill-a`, both `../secret.txt` and `/etc/passwd` fail with a sandbox
violation, for every filesystem. -/
theorem readSkillResource_sandbox (fs : Fs) (skills : SkillMap)
    (skillName : String) (filePath : RawPath) (skill : Skill)
    (hskill : skills.lookup skillName = some skill) :
    (∀ c, (resolvePath skill.path).isPrefixOf (sandboxCandidate skill.path filePath) = true →
        fsFile? fs (sandboxCandidate skill.path filePath) = some c →
        readSkillResource fs skills skillName filePath = .ok c) ∧
    ((resolvePath skill.path).isPrefixOf (sandboxCandidate skill.path filePath) = false →
        readSkillResource fs skills skillName filePath =
          .error (.securityError filePath skillName)) ∧
    (skill.path = ["skills", "skill-a"] →
        readSkillResource fs skills skillName
            { absolute := false, comps := ["..", "secret.txt"] } =
          .error (.securityError { absolute := false, comps := ["..", "secret.txt"] }
            skillName) ∧
        readSkillResource fs skills skillName
            { absolute := true, comps := ["etc", "passwd"] } =
          .error (.securityError { absolute := true, comps := ["etc", "passwd"] }
            skillName)) := by
  refine ⟨?_, ?_, ?_⟩
  · intro c hpre hfile
    rw [readSkillResource_eq fs skills skillName filePath skill hskill, hpre, hfile]
    rfl
  · intro hpre
    rw [readSkillResource_eq fs skills skillName filePath skill hskill, hpre]
    rfl
  · intro hpath
    constructor
    · rw [readSkillResource_eq fs skills skillName _ skill hskill, hpath]
      rfl
    · rw [readSkillResource_eq fs skills skillName _ skill hskill, hpath]
      rfl

/-- C1 (witness): instantiating `readSkillResource_sandbox` on the spec's
scenario: a skill rooted at `skills/skill-a` containing `template.txt`; the
direct read succeeds and `../secret.txt` is a sandbox violation. -/
theorem readSkillResource_sandbox_witness :
    readSkillResource [(["skills", "skill-a", "template.txt"], .file "OK")]
      [("skill-a", { name := "skill-a", description := "d", instructions := "",
                     path := ["skills", "skill-a"] })]
      "skill-a" { absolute := false, comps := ["template.txt"] } = .ok "OK" ∧
    readSkillResource [(["skills", "skill-a", "template.txt"], .file "OK")]
      [("skill-a", { name := "skill-a", description := "d", instructions := "",
                     path := ["skills", "skill-a"] })]
      "skill-a" { absolute := false, comps := ["..", "secret.txt"] } =
      .error (.securityError { absolute := false, comps := ["..", "secret.txt"] }
        "skill-a") := by
  have h := readSkillResource_sandbox
    [(["skills", "skill-a", "template.txt"], .file "OK")]
    [("skill-a", { name := "skill-a", description := "d", instructions := "",
                   path := ["skills", "skill-a"] })]
    "skill-a" { absolute := false, comps := ["template.txt"] }
    { name := "skill-a", description := "d", instructions := "",
      path := ["skills", "skill-a"] } rfl
  exact ⟨h.1 "OK" rfl rfl, (h.2.2 rfl).1⟩

/-! ## `skills/parser.py`: `parse_skill_metadata`

The YAML frontmatter of a `SKILL.md` file is modelled at the point where
`yaml.safe_load` hands it to the validation code: either a failure shape, or
the parsed mapping.  Scalar values that are not strings are collapsed into
one constructor (`FmVal.other`); the Python code only ever inspects whether a
value is a string, a list or a mapping, apart from `str()` renderings. -/

/-- A value of the parsed YAML frontmatter mapping. -/
inductive FmVal where
  | str (s : String)
  | list (xs : List FmVal)
  | dict (m : List (String × FmVal))
  | other

/-- What extracting and parsing the frontmatter of a descriptor yields. -/
inductive Header where
  /-- The `^---\n...\n---\n` block is absent. -/
  | noFrontmatter
  /-- `yaml.safe_load` raised, with the exception's text. -/
  | invalidYaml (err : String)
  /-- The YAML parsed but is not a mapping. -/
  | notDict
  /-- The parsed frontmatter mapping. -/
  | dict (entries : List (String × FmVal))

/-- Python `str()` of a frontmatter value (only its string case is ever
compared by the code under proof; renderings of the other shapes are
abstract). -/
def pyStr : FmVal → String
  | .str s => s
  | .list _ => "[...]"
  | .dict _ => "\x7b...\x7d"
  | .other => "<scalar>"

/-- A character admitted by the `^[a-z0-9-]+$` name pattern. -/
def isNameChar (c : Char) : Bool :=
  (Char.ofNat 97 ≤ c ∧ c ≤ Char.ofNat 122) ∨ (Char.ofNat 48 ≤ c ∧ c ≤ Char.ofNat 57)
    ∨ c = Char.ofNat 45

/-- Python `needle in hay` on strings: contiguous substring. -/
def listContains (needle : List Char) : List Char → Bool
  | [] => needle.isEmpty
  | c :: rest => needle.isPrefixOf (c :: rest) || listContains needle rest

/-- Python `needle in hay` on strings. -/
def strContains (hay needle : String) : Bool :=
  listContains needle.data hay.data

/-- Python `s.split()`: split on whitespace runs, dropping empty pieces. -/
def splitWs (s : String) : List String :=
  ((chSplit Char.isWhitespace s.data).map String.mk).filter (fun p => p ≠ "")

/-- The metadata dictionary `parse_skill_metadata` returns: optional fields
mirror keys that are only present in the result when present in the header. -/
structure SkillMeta where
  name : String
  description : String
  license : Option String := none
  compatibility : Option String := none
  tools : Option (List String) := none
  metadata : Option (List (String × FmVal)) := none

/-- The optional-field tail of `parse_skill_metadata` (parser.py lines
74-114): validate `license`, `compatibility`, `tools` and `metadata` and
assemble the result dictionary. -/
def parseOptionalFields (path : String) (fm : List (String × FmVal))
    (name description : String) : Except String SkillMeta :=
  let license := (fm.lookup "license").map pyStr
  let step2 : Except String (Option String) :=
    match (fm.lookup "compatibility").map pyStr with
    | some c =>
      if c.length > 500 then
        .error ("'compatibility' in " ++ path ++ " exceeds 500 characters")
      else .ok (some c)
    | none => .ok none
  match step2 with
  | .error e => .error e
  | .ok compatibility =>
    let step3 : Except String (Option (List String)) :=
      match fm.lookup "tools" with
      | some (.str s) => .ok (some (splitWs s))
      | some (.list xs) => .ok (some (xs.map pyStr))
      | some _ => .error ("'tools' in " ++ path ++ " must be string or list")
      | none => .ok none
    match step3 with
    | .error e => .error e
    | .ok tools =>
      match fm.lookup "metadata" with
      | some (.dict m) =>
        .ok { name, description, license, compatibility, tools, metadata := some m }
      | some _ => .error ("'metadata' in " ++ path ++ " must be a dictionary")
      | none =>
        .ok { name, description, license, compatibility, tools, metadata := none }

/-- `parse_skill_metadata` (parser.py lines 8-114): extract the frontmatter,
require `name` and `description`, validate them against the Agent Skills
invariants, then validate the optional `license` / `compatibility` / `tools`
/ `metadata` fields.  Every failure is a raised `ValueError`, modelled as
`Except.error` carrying the message. -/
def parseSkillMetadata (path : String) (h : Header) : Except String SkillMeta :=
  match h with
  | .noFrontmatter => .error ("No YAML frontmatter found in " ++ path)
  | .invalidYaml e => .error ("Invalid YAML in " ++ path ++ ": " ++ e)
  | .notDict => .error ("YAML frontmatter must be a dictionary in " ++ path)
  | .dict fm =>
    match fm.lookup "name" with
    | none => .error ("Missing required 'name' field in " ++ path)
    | some nameV =>
      match fm.lookup "description" with
      | none => .error ("Missing required 'description' field in " ++ path)
      | some descV =>
        match nameV with
        | .str name =>
          if name.length < 1 ∨ name.length > 64 then
            .error ("Invalid 'name' in " ++ path ++ ": must be 1-64 characters")
          else if ¬ name.data.all isNameChar then
            .error ("Invalid 'name' in " ++ path ++
              ": must be lowercase alphanumeric + hyphens")
          else if pyStartsWith name "-" ∨ pyEndsWith name "-" ∨ strContains name "--" then
            .error ("Invalid 'name' in " ++ path ++
              ": no leading/trailing/consecutive hyphens")
          else
            match descV with
            | .str description =>
              if description.length < 1 ∨ description.length > 1024 then
                .error ("Invalid 'description' in " ++ path ++
                  ": must be 1-1024 characters")
              else parseOptionalFields path fm name description
            | _ =>
              .error ("Invalid 'description' in " ++ path ++
                ": must be 1-1024 characters")
        | _ => .error ("Invalid 'name' in " ++ path ++ ": must be 1-64 characters")

/-! ## `skills/discovery.py`: `discover_skills` with the persisted cache

A scan input is modelled after the point where the filesystem has been
globbed: each configured directory carries its existence/kind flags and the
ordered `glob("**/SKILL.md")` results; each descriptor file carries its
`stat` outcome, its header (as handed to the validators) and the probed
`scripts/` / `references/` / `assets/` booleans. -/

/-- One `SKILL.md` descriptor file as the scan sees it. -/
structure SkillFile where
  /-- `str(skill_file)`, the cache key. -/
  path : String
  /-- `skill_file.parent.name`, the containing folder's name. -/
  dirName : String
  /-- `skill_file.parent`, the skill directory. -/
  skillDir : CPath
  /-- `skill_file.stat()`: `some (st_mtime_ns, st_size)`, or `none` when the
  stat call raised. -/
  stat : Option (Int × Nat)
  /-- The parsed YAML frontmatter shape. -/
  header : Header
  /-- The body text after the frontmatter. -/
  body : String
  hasScripts : Bool
  hasReferences : Bool
  hasAssets : Bool

/-- One configured skills directory with its `glob("**/SKILL.md")` results. -/
structure SkillsDir where
  path : String
  dirExists : Bool
  isDir : Bool
  files : List SkillFile

/-- One entry of the persisted cache:
`{"mtime_ns": ..., "size": ..., "metadata": ...}`. -/
structure CacheEntry where
  mtimeNs : Int
  size : Nat
  metadata : SkillMeta

/-- The in-memory cache dictionary keyed by descriptor path. -/
abbrev Cache := List (String × CacheEntry)

/-- Python `dict` assignment `d[k] = v`: replace the (unique) binding in
place, appending when the key is absent. -/
def dictInsert {α : Type} (m : List (String × α)) (k : String) (v : α) :
    List (String × α) :=
  match m with
  | [] => [(k, v)]
  | p :: rest => if p.1 = k then (k, v) :: rest else p :: dictInsert rest k v

/-- `updated_cache_entries[cache_key] = {...}`. -/
def cacheInsert (c : Cache) (k : String) (v : CacheEntry) : Cache :=
  dictInsert c k v

/-- One skill record of the list `discover_skills` returns (discovery.py
lines 197-209). -/
structure DiscoveredSkill where
  name : String
  description : String
  license : Option String
  compatibility : Option String
  tools : Option (List String)
  metadata : List (String × FmVal)
  path : String
  skillDir : CPath
  hasScripts : Bool
  hasReferences : Bool
  hasAssets : Bool

/-- Build the discovery record for one file from its validated metadata
(discovery.py lines 192-209, `metadata.get('metadata', {})` defaulting). -/
def mkDiscovered (f : SkillFile) (m : SkillMeta) : DiscoveredSkill :=
  { name := m.name, description := m.description, license := m.license
    compatibility := m.compatibility, tools := m.tools
    metadata := m.metadata.getD [], path := f.path, skillDir := f.skillDir
    hasScripts := f.hasScripts, hasReferences := f.hasReferences
    hasAssets := f.hasAssets }

/-- The running state of a discovery scan: the dedup set `seen_names`, the
accumulated skill list, and `updated_cache_entries`. -/
structure DiscAcc where
  seen : List String
  skills : List DiscoveredSkill
  cache : Cache

/-- The cache probe for one descriptor file (discovery.py lines 158-168):
the stored entry's metadata, when `(mtime_ns, size)` match the current stat. -/
def cachedMeta (cache : Cache) (f : SkillFile) : Option SkillMeta :=
  match f.stat, cache.lookup f.path with
  | some (mt, sz), some e =>
    if e.mtimeNs = mt ∧ e.size = sz then some e.metadata else none
  | _, _ => none

/-- Obtain one file's metadata and the updated cache (discovery.py lines
150-181): a cache hit skips parsing; a miss parses the header (a parse
failure aborts discovery) and records a fresh cache entry when the stat
succeeded. -/
def discStep (cache : Cache) (f : SkillFile) : Except String (SkillMeta × Cache) :=
  match cachedMeta cache f with
  | some m => .ok (m, cache)
  | none =>
    match parseSkillMetadata f.path f.header with
    | .error e => .error ("Error parsing skill at " ++ f.path ++ ": " ++ e)
    | .ok m =>
      match f.stat with
      | some (mt, sz) => .ok (m, cacheInsert cache f.path ⟨mt, sz, m⟩)
      | none => .ok (m, cache)

/-- Process one descriptor file (discovery.py lines 147-209): obtain its
metadata, enforce name uniqueness and append the discovery record. -/
def discFile (acc : DiscAcc) (f : SkillFile) : Except String DiscAcc :=
  match discStep acc.cache f with
  | .error e => .error e
  | .ok (metadata, cache) =>
    if metadata.name ∈ acc.seen then
      .error ("Duplicate skill name '" ++ metadata.name ++ "' discovered at " ++
        f.path ++ ". Skill names must be unique.")
    else
      .ok { seen := acc.seen ++ [metadata.name]
            skills := acc.skills ++ [mkDiscovered f metadata]
            cache }

/-- Process a directory's files in glob order. -/
def discFiles (acc : DiscAcc) : List SkillFile → Except String DiscAcc
  | [] => .ok acc
  | f :: fs =>
    match discFile acc f with
    | .error e => .error e
    | .ok acc2 => discFiles acc2 fs

/-- Process one configured directory (discovery.py lines 137-145): a missing
or non-directory path aborts the call. -/
def discDir (acc : DiscAcc) (d : SkillsDir) : Except String DiscAcc :=
  if ¬ d.dirExists then
    .error ("Skills directory not found: " ++ d.path)
  else if ¬ d.isDir then
    .error ("Skills path is not a directory: " ++ d.path)
  else discFiles acc d.files

/-- Process the configured directories in order. -/
def discDirs (acc : DiscAcc) : List SkillsDir → Except String DiscAcc
  | [] => .ok acc
  | d :: ds =>
    match discDir acc d with
    | .error e => .error e
    | .ok acc2 => discDirs acc2 ds

/-- `discover_skills` (discovery.py lines 97-214).  `cacheIn` is the loaded
persisted cache (empty when caching is disabled, the cache file is absent, or
`_load_cache` rejected it); the function returns the discovered skill list
together with `updated_cache_entries`, the entries `_save_cache` persists. -/
def discoverSkills (cacheIn : Cache) (dirs : List SkillsDir) :
    Except String (List DiscoveredSkill × Cache) :=
  match discDirs { seen := [], skills := [], cache := cacheIn } dirs with
  | .error e => .error e
  | .ok acc => .ok (acc.skills, acc.cache)

/-! ## `skills/registry.py`: `SkillRegistry.discover` -/

/-- `frontmatter.load(skill_file).metadata`: a file without a frontmatter
block yields an empty mapping; a header that `frontmatter.load` cannot turn
into a mapping raises out of `discover`. -/
def frontmatterLoad (f : SkillFile) : Except String (List (String × FmVal)) :=
  match f.header with
  | .dict m => .ok m
  | .noFrontmatter => .ok []
  | .invalidYaml e => .error e
  | .notDict => .error ("frontmatter metadata is not a mapping in " ++ f.path)

/-- The `Skill` record `SkillRegistry.discover` stores for one descriptor
(registry.py lines 43-59): `name` defaults to the containing folder's name,
`description` to `"No description"`; values go through `str()`. -/
def regSkillOf (f : SkillFile) (fm : List (String × FmVal)) : Skill :=
  { name := (fm.lookup "name").elim f.dirName pyStr
    description := (fm.lookup "description").elim "No description" pyStr
    instructions := pyStrip f.body
    path := f.skillDir
    version := (fm.lookup "version").map pyStr }

/-- The loop of `SkillRegistry.discover` over the glob results. -/
def registryDiscoverLoop (m : SkillMap) : List SkillFile → Except String SkillMap
  | [] => .ok m
  | f :: fs =>
    match frontmatterLoad f with
    | .error e => .error e
    | .ok fm =>
      let skill := regSkillOf f fm
      registryDiscoverLoop (dictInsert m skill.name skill) fs

/-- `SkillRegistry.discover` (registry.py lines 39-59): rebuild the internal
name-keyed map from the glob results; a later file with the same name
overwrites the earlier entry (plain `dict` assignment, no duplicate check). -/
def registryDiscover (files : List SkillFile) : Except String SkillMap :=
  registryDiscoverLoop [] files

/-! ## C6: discovery returns unique names or aborts -/

/-- The discovery invariant: accumulated names are pairwise distinct and all
recorded in `seen_names`. -/
def DiscInv (acc : DiscAcc) : Prop :=
  (acc.skills.map DiscoveredSkill.name).Nodup ∧
    ∀ n, n ∈ acc.skills.map DiscoveredSkill.name → n ∈ acc.seen

theorem discFile_inv {acc : DiscAcc} {f : SkillFile} {acc2 : DiscAcc}
    (hinv : DiscInv acc) (h : discFile acc f = .ok acc2) : DiscInv acc2 := by
  unfold discFile at h
  match hv : discStep acc.cache f with
  | .error e => rw [hv] at h; exact absurd h (by simp)
  | .ok (metadata, cache) =>
    rw [hv] at h
    by_cases hmem : metadata.name ∈ acc.seen
    · simp only [hmem, if_true, ite_true] at h
      exact absurd h (by simp)
    · simp only [hmem, if_neg, ite_false] at h
      obtain ⟨hn, hs⟩ := hinv
      cases h
      constructor
      · simp only [List.map_append, List.map_cons, List.map_nil]
        rw [List.nodup_append]
        refine ⟨hn, List.nodup_singleton _, ?_⟩
        intro a ha hb
        simp only [List.mem_singleton] at hb
        subst hb
        exact hmem (hs _ (by simpa [mkDiscovered] using ha))
      · intro n hmemn
        simp only [List.map_append, List.map_cons, List.map_nil,
          List.mem_append, List.mem_singleton] at hmemn
        rcases hmemn with h1 | h2
        · exact List.mem_append_left _ (hs _ h1)
        · subst h2
          simp [mkDiscovered]

theorem discFiles_inv {fs : List SkillFile} {acc acc2 : DiscAcc}
    (hinv : DiscInv acc) (h : discFiles acc fs = .ok acc2) : DiscInv acc2 := by
  induction fs generalizing acc with
  | nil => unfold discFiles at h; cases h; exact hinv
  | cons f fs ih =>
    unfold discFiles at h
    match hv : discFile acc f with
    | .error e => rw [hv] at h; exact absurd h (by simp)
    | .ok accm => rw [hv] at h; exact ih (discFile_inv hinv hv) h

theorem discDir_inv {d : SkillsDir} {acc acc2 : DiscAcc}
    (hinv : DiscInv acc) (h : discDir acc d = .ok acc2) : DiscInv acc2 := by
  unfold discDir at h
  by_cases h1 : d.dirExists
  · by_cases h2 : d.isDir
    · simp only [h1, h2, not_true, ite_false] at h
      exact discFiles_inv hinv h
    · simp [h1, h2] at h
  · simp [h1] at h

theorem discDirs_inv {ds : List SkillsDir} {acc acc2 : DiscAcc}
    (hinv : DiscInv acc) (h : discDirs acc ds = .ok acc2) : DiscInv acc2 := by
  induction ds generalizing acc with
  | nil => unfold discDirs at h; cases h; exact hinv
  | cons d ds ih =>
    unfold discDirs at h
    match hv : discDir acc d with
    | .error e => rw [hv] at h; exact absurd h (by simp)
    | .ok accm => rw [hv] at h; exact ih (discDir_inv hinv hv) h

/-- C6: a successful discovery returns a catalog with pairwise-distinct skill
names, for every loaded cache and every configured directory set; a failure
(here: two descriptor files in two different configured directories carrying
the same name) aborts the whole call with a `Duplicate skill name` error and
returns no catalog at all — `discover_skills` never returns a partially
populated list. -/
theorem discoverSkills_unique_names :
    (∀ (cacheIn : Cache) (dirs : List SkillsDir) (skills : List DiscoveredSkill)
        (cacheOut : Cache), discoverSkills cacheIn dirs = .ok (skills, cacheOut) →
        (skills.map DiscoveredSkill.name).Nodup) ∧
    discoverSkills []
      [{ path := "skills", dirExists := true, isDir := true
         files := [{ path := "skills/a/SKILL.md", dirName := "a"
                     skillDir := ["skills", "a"], stat := none
                     header := .dict [("name", .str "skill-x"),
                                      ("description", .str "D")]
                     body := "", hasScripts := false, hasReferences := false
                     hasAssets := false }] },
       { path := "extra", dirExists := true, isDir := true
         files := [{ path := "extra/b/SKILL.md", dirName := "b"
                     skillDir := ["extra", "b"], stat := none
                     header := .dict [("name", .str "skill-x"),
                                      ("description", .str "E")]
                     body := "", hasScripts := false, hasReferences := false
                     hasAssets := false }] }] =
      .error ("Duplicate skill name 'skill-x' discovered at extra/b/SKILL.md" ++
        ". Skill names must be unique.") := by
  constructor
  · intro cacheIn dirs skills cacheOut h
    unfold discoverSkills at h
    match hv : discDirs { seen := [], skills := [], cache := cacheIn } dirs with
    | .error e => rw [hv] at h; exact absurd h (by simp)
    | .ok acc =>
      rw [hv] at h
      cases h
      have hinv0 : DiscInv { seen := [], skills := [], cache := cacheIn } := by
        constructor
        · exact List.nodup_nil
        · intro n hn; simp at hn
      exact (discDirs_inv hinv0 hv).1
  · rfl

/-- C6 (witness): `discoverSkills_unique_names` applied to a concrete
successful two-skill discovery yields distinct names. -/
theorem discoverSkills_unique_names_witness :
    (["skill-a", "skill-b"] : List String).Nodup := by
  have h := discoverSkills_unique_names.1 []
    [{ path := "skills", dirExists := true, isDir := true
       files := [{ path := "skills/a/SKILL.md", dirName := "a"
                   skillDir := ["skills", "a"], stat := none
                   header := .dict [("name", .str "skill-a"),
                                    ("description", .str "D")]
                   body := "", hasScripts := false, hasReferences := false
                   hasAssets := false },
                 { path := "skills/b/SKILL.md", dirName := "b"
                   skillDir := ["skills", "b"], stat := none
                   header := .dict [("name", .str "skill-b"),
                                    ("description", .str "E")]
                   body := "", hasScripts := false, hasReferences := false
                   hasAssets := false }] }]
  exact h _ _ rfl

theorem lookup_dictInsert {α : Type} (m : List (String × α)) (k : String) (v : α) :
    (dictInsert m k v).lookup k = some v := by
  induction m with
  | nil => simp [dictInsert, List.lookup]
  | cons p rest ih =>
    unfold dictInsert
    by_cases hk : p.1 = k
    · simp [List.lookup, hk]
    · have hk2 : (k == p.1) = false := by
        simp only [beq_eq_false_iff_ne, ne_eq]
        exact fun hkk => hk hkk.symm
      simp only [if_neg hk, ite_false, List.lookup, hk2]
      exact ih

/-- C7 (counterexample): the claim says a descriptor whose header lacks a
`name` field gets the containing folder's name during discovery.  In fact
`discover_skills` (the discovery path that performs the duplicate-name check)
treats the missing `name` as a fatal parse error and aborts the call. -/
theorem discoverSkills_missing_name_counterexample :
    discoverSkills []
      [{ path := "skills", dirExists := true, isDir := true
         files := [{ path := "skills/folder-a/SKILL.md", dirName := "folder-a"
                     skillDir := ["skills", "folder-a"], stat := none
                     header := .dict [("description", .str "D")]
                     body := "", hasScripts := false, hasReferences := false
                     hasAssets := false }] }] =
      .error ("Error parsing skill at skills/folder-a/SKILL.md: " ++
        "Missing required 'name' field in skills/folder-a/SKILL.md") := rfl

/-- C7 (amended): in the discovery pipeline (`parse_skill_metadata`, called
by `discover_skills`) a header without a `name` field is a fatal parse
error; the folder-name default exists only in `SkillRegistry.discover`,
where the defaulted name keys the registry's map and a later skill with the
same name silently overwrites the earlier entry instead of raising a
duplicate error. -/
theorem missingName_fatal_registry_defaults :
    (∀ (path : String) (entries : List (String × FmVal)),
        entries.lookup "name" = none →
        parseSkillMetadata path (.dict entries) =
          .error ("Missing required 'name' field in " ++ path)) ∧
    (∀ (f : SkillFile) (entries : List (String × FmVal)),
        entries.lookup "name" = none → (regSkillOf f entries).name = f.dirName) ∧
    (∀ (f1 f2 : SkillFile) (fm1 fm2 : List (String × FmVal)),
        frontmatterLoad f1 = .ok fm1 → frontmatterLoad f2 = .ok fm2 →
        (regSkillOf f1 fm1).name = (regSkillOf f2 fm2).name →
        ∃ m, registryDiscover [f1, f2] = .ok m ∧
          m.lookup ((regSkillOf f2 fm2).name) = some (regSkillOf f2 fm2)) := by
  refine ⟨?_, ?_, ?_⟩
  · intro path entries h
    simp only [parseSkillMetadata, h]
  · intro f entries h
    simp only [regSkillOf, h, Option.elim]
  · intro f1 f2 fm1 fm2 h1 h2 hname
    refine ⟨dictInsert
        (dictInsert [] (regSkillOf f1 fm1).name (regSkillOf f1 fm1))
        (regSkillOf f2 fm2).name (regSkillOf f2 fm2), ?_,
      lookup_dictInsert _ _ _⟩
    unfold registryDiscover registryDiscoverLoop
    rw [h1]
    simp only
    unfold registryDiscoverLoop
    rw [h2]
    simp only
    unfold registryDiscoverLoop
    rfl

/-- C7 (witness): `missingName_fatal_registry_defaults` instantiated: a
concrete header without `name` is rejected by the parser, while the registry
defaults the same header's skill name to its folder `folder-a`. -/
theorem missingName_fatal_registry_defaults_witness :
    parseSkillMetadata "skills/folder-a/SKILL.md"
        (.dict [("description", .str "D")]) =
      .error ("Missing required 'name' field in skills/folder-a/SKILL.md") ∧
    (regSkillOf
        { path := "skills/folder-a/SKILL.md", dirName := "folder-a"
          skillDir := ["skills", "folder-a"], stat := none
          header := .dict [("description", .str "D")], body := "B"
          hasScripts := false, hasReferences := false, hasAssets := false }
        [("description", .str "D")]).name = "folder-a" :=
  ⟨missingName_fatal_registry_defaults.1 "skills/folder-a/SKILL.md"
      [("description", .str "D")] rfl,
    missingName_fatal_registry_defaults.2.1 _ [("description", .str "D")] rfl⟩

/-! ## C9: cached re-discovery of an unchanged tree -/

theorem lookup_dictInsert_ne {α : Type} (m : List (String × α)) (k p : String)
    (v : α) (h : p ≠ k) : (dictInsert m k v).lookup p = m.lookup p := by
  have hpk : (p == k) = false := by simp [h]
  induction m with
  | nil => simp [dictInsert, List.lookup, hpk]
  | cons q rest ih =>
    unfold dictInsert
    by_cases hk : q.1 = k
    · simp only [if_pos hk, ite_true, List.lookup, hpk]
      have : (p == q.1) = false := by rw [hk]; exact hpk
      rw [this]
    · simp only [if_neg hk, ite_false, List.lookup]
      match hq : (p == q.1) with
      | true => rfl
      | false => exact ih

theorem cachedMeta_of_fresh {cache : Cache} {f : SkillFile}
    (h : cache.lookup f.path = none) : cachedMeta cache f = none := by
  unfold cachedMeta
  cases hst : f.stat with
  | none => rfl
  | some ms => obtain ⟨mt, sz⟩ := ms; rw [h]

theorem discStep_of_fresh {cache : Cache} {f : SkillFile}
    (h : cache.lookup f.path = none) :
    discStep cache f =
      match parseSkillMetadata f.path f.header with
      | .error e => .error ("Error parsing skill at " ++ f.path ++ ": " ++ e)
      | .ok m =>
        match f.stat with
        | some (mt, sz) => .ok (m, cacheInsert cache f.path ⟨mt, sz, m⟩)
        | none => .ok (m, cache) := by
  unfold discStep
  rw [cachedMeta_of_fresh h]

theorem discStep_of_hit {cache : Cache} {f : SkillFile} {mt : Int} {sz : Nat}
    {m : SkillMeta} (hst : f.stat = some (mt, sz))
    (hl : cache.lookup f.path = some ⟨mt, sz, m⟩) :
    discStep cache f = .ok (m, cache) := by
  unfold discStep cachedMeta
  rw [hst, hl]
  simp

/-- The cache entries run 2 relies on: every file whose stat succeeded has a
cache entry matching its current `(mtime_ns, size)`, holding exactly what
parsing its header yields. -/
def GoodCache (c : Cache) (fs : List SkillFile) : Prop :=
  ∀ f ∈ fs, ∀ mt sz, f.stat = some (mt, sz) →
    ∃ m, parseSkillMetadata f.path f.header = .ok m ∧
      c.lookup f.path = some ⟨mt, sz, m⟩

theorem discFiles_cache_spec :
    ∀ (fs : List SkillFile) (acc acc' : DiscAcc),
      discFiles acc fs = .ok acc' →
      (∀ f ∈ fs, acc.cache.lookup f.path = none) →
      (fs.map SkillFile.path).Nodup →
      GoodCache acc'.cache fs ∧
      (∀ p, (∀ f ∈ fs, f.path ≠ p) → acc'.cache.lookup p = acc.cache.lookup p) := by
  intro fs
  induction fs with
  | nil =>
    intro acc acc' h _ _
    unfold discFiles at h
    cases h
    exact ⟨by intro f hf; simp at hf, fun p _ => rfl⟩
  | cons f fs ih =>
    intro acc acc' h hfresh hnd
    unfold discFiles at h
    match hd : discFile acc f with
    | .error e => rw [hd] at h; exact absurd h (by simp)
    | .ok accm =>
    rw [hd] at h
    have hf0 : acc.cache.lookup f.path = none := hfresh f (by simp)
    unfold discFile at hd
    rw [discStep_of_fresh hf0] at hd
    match hp : parseSkillMetadata f.path f.header with
    | .error e => rw [hp] at hd; exact absurd hd (by simp)
    | .ok m =>
    rw [hp] at hd
    have hnotmem : f.path ∉ fs.map SkillFile.path := by
      have := hnd
      rw [List.map_cons, List.nodup_cons] at this
      exact this.1
    have hndtail : (fs.map SkillFile.path).Nodup := by
      have := hnd
      rw [List.map_cons, List.nodup_cons] at this
      exact this.2
    have hne : ∀ g ∈ fs, g.path ≠ f.path := by
      intro g hg hgp
      exact hnotmem (hgp ▸ List.mem_map_of_mem SkillFile.path hg)
    cases hst : f.stat with
    | some ms =>
      obtain ⟨mt, sz⟩ := ms
      rw [hst] at hd
      simp only at hd
      by_cases hmem : m.name ∈ acc.seen
      · rw [if_pos hmem] at hd; exact absurd hd (by simp)
      · rw [if_neg hmem] at hd
        cases hd
        have hfresh2 : ∀ g ∈ fs,
            (cacheInsert acc.cache f.path ⟨mt, sz, m⟩).lookup g.path = none := by
          intro g hg
          rw [cacheInsert, lookup_dictInsert_ne _ _ _ _ (hne g hg)]
          exact hfresh g (List.mem_cons_of_mem f hg)
        obtain ⟨ih1, ih2⟩ := ih _ acc' h hfresh2 hndtail
        constructor
        · intro g hg mt2 sz2 hst2
          rcases List.mem_cons.mp hg with hgf | hgtail
          · subst hgf
            rw [hst] at hst2
            cases hst2
            refine ⟨m, hp, ?_⟩
            rw [ih2 g.path hne, cacheInsert, lookup_dictInsert]
          · exact ih1 g hgtail mt2 sz2 hst2
        · intro p hpne
          have hfp : f.path ≠ p := hpne f (by simp)
          rw [ih2 p (fun g hg => hpne g (List.mem_cons_of_mem f hg)),
            cacheInsert, lookup_dictInsert_ne _ _ _ _ (fun hpp => hfp hpp.symm)]
    | none =>
      rw [hst] at hd
      simp only at hd
      by_cases hmem : m.name ∈ acc.seen
      · rw [if_pos hmem] at hd; exact absurd hd (by simp)
      · rw [if_neg hmem] at hd
        cases hd
        have hfresh2 : ∀ g ∈ fs, acc.cache.lookup g.path = none := by
          intro g hg
          exact hfresh g (List.mem_cons_of_mem f hg)
        obtain ⟨ih1, ih2⟩ := ih _ acc' h hfresh2 hndtail
        constructor
        · intro g hg mt2 sz2 hst2
          rcases List.mem_cons.mp hg with hgf | hgtail
          · subst hgf
            rw [hst] at hst2
            exact absurd hst2 (by simp)
          · exact ih1 g hgtail mt2 sz2 hst2
        · intro p hpne
          exact ih2 p (fun g hg => hpne g (List.mem_cons_of_mem f hg))

theorem cachedMeta_of_statNone {cache : Cache} {f : SkillFile}
    (hst : f.stat = none) : cachedMeta cache f = none := by
  unfold cachedMeta
  rw [hst]

theorem discFiles_cached_run :
    ∀ (fs : List SkillFile) (seen : List String) (skills : List DiscoveredSkill)
      (cRun1 c1 : Cache) (acc' : DiscAcc),
      discFiles ⟨seen, skills, cRun1⟩ fs = .ok acc' →
      (∀ f ∈ fs, cRun1.lookup f.path = none) →
      (fs.map SkillFile.path).Nodup →
      GoodCache c1 fs →
      discFiles ⟨seen, skills, c1⟩ fs = .ok ⟨acc'.seen, acc'.skills, c1⟩ := by
  intro fs
  induction fs with
  | nil =>
    intro seen skills cRun1 c1 acc' h _ _ _
    unfold discFiles at h
    cases h
    rfl
  | cons f fs ih =>
    intro seen skills cRun1 c1 acc' h hfresh hnd hgood
    unfold discFiles at h
    match hd : discFile ⟨seen, skills, cRun1⟩ f with
    | .error e => rw [hd] at h; exact absurd h (by simp)
    | .ok accm =>
    rw [hd] at h
    have hf0 : cRun1.lookup f.path = none := hfresh f (by simp)
    unfold discFile at hd
    rw [discStep_of_fresh hf0] at hd
    match hp : parseSkillMetadata f.path f.header with
    | .error e => rw [hp] at hd; exact absurd hd (by simp)
    | .ok m =>
    rw [hp] at hd
    have hndtail : (fs.map SkillFile.path).Nodup := by
      rw [List.map_cons, List.nodup_cons] at hnd
      exact hnd.2
    have hnotmem : f.path ∉ fs.map SkillFile.path := by
      have := hnd
      rw [List.map_cons, List.nodup_cons] at this
      exact this.1
    have hne : ∀ g ∈ fs, g.path ≠ f.path := by
      intro g hg hgp
      exact hnotmem (hgp ▸ List.mem_map_of_mem SkillFile.path hg)
    -- run 2's step for the head file yields the same metadata with cache c1
    have hstep2 : discStep c1 f = .ok (m, c1) := by
      cases hst : f.stat with
      | some ms =>
        obtain ⟨mt, sz⟩ := ms
        obtain ⟨m2, hp2, hl2⟩ := hgood f (by simp) mt sz hst
        have hm : m2 = m := by
          rw [hp] at hp2
          exact (Except.ok.injEq _ _).mp hp2.symm
        exact discStep_of_hit hst (hm ▸ hl2)
      | none =>
        unfold discStep
        rw [cachedMeta_of_statNone hst, hp, hst]
    cases hst : f.stat with
    | some ms =>
      obtain ⟨mt, sz⟩ := ms
      rw [hst] at hd
      simp only at hd
      by_cases hmem : m.name ∈ seen
      · rw [if_pos hmem] at hd; exact absurd hd (by simp)
      · rw [if_neg hmem] at hd
        cases hd
        have hfresh2 : ∀ g ∈ fs,
            (cacheInsert cRun1 f.path ⟨mt, sz, m⟩).lookup g.path = none := by
          intro g hg
          rw [cacheInsert, lookup_dictInsert_ne _ _ _ _ (hne g hg)]
          exact hfresh g (List.mem_cons_of_mem f hg)
        have hgood2 : GoodCache c1 fs := fun g hg => hgood g (List.mem_cons_of_mem f hg)
        have ih2 := ih (seen ++ [m.name]) (skills ++ [mkDiscovered f m]) _ c1 acc' h
          hfresh2 hndtail hgood2
        unfold discFiles discFile
        rw [hstep2]
        simp only [if_neg hmem, ite_false]
        exact ih2
    | none =>
      rw [hst] at hd
      simp only at hd
      by_cases hmem : m.name ∈ seen
      · rw [if_pos hmem] at hd; exact absurd hd (by simp)
      · rw [if_neg hmem] at hd
        cases hd
        have hfresh2 : ∀ g ∈ fs, cRun1.lookup g.path = none := by
          intro g hg
          exact hfresh g (List.mem_cons_of_mem f hg)
        have hgood2 : GoodCache c1 fs := fun g hg => hgood g (List.mem_cons_of_mem f hg)
        have ih2 := ih (seen ++ [m.name]) (skills ++ [mkDiscovered f m]) _ c1 acc' h
          hfresh2 hndtail hgood2
        unfold discFiles discFile
        rw [hstep2]
        simp only [if_neg hmem, ite_false]
        exact ih2

/-- All descriptor paths a scan will visit, in order. -/
def allFilePaths (ds : List SkillsDir) : List String :=
  (ds.map (fun d => d.files.map SkillFile.path)).flatten

theorem discDir_ok {acc acc' : DiscAcc} {d : SkillsDir}
    (h : discDir acc d = .ok acc') :
    d.dirExists = true ∧ d.isDir = true ∧ discFiles acc d.files = .ok acc' := by
  unfold discDir at h
  by_cases h1 : d.dirExists
  · by_cases h2 : d.isDir
    · refine ⟨h1, h2, ?_⟩
      simpa [h1, h2] using h
    · simp [h1, h2] at h
  · simp [h1] at h

theorem discDirs_cache_spec :
    ∀ (ds : List SkillsDir) (acc acc' : DiscAcc),
      discDirs acc ds = .ok acc' →
      (∀ d ∈ ds, ∀ f ∈ d.files, acc.cache.lookup f.path = none) →
      (allFilePaths ds).Nodup →
      (∀ d ∈ ds, GoodCache acc'.cache d.files) ∧
      (∀ p, (∀ d ∈ ds, ∀ f ∈ d.files, f.path ≠ p) →
        acc'.cache.lookup p = acc.cache.lookup p) := by
  intro ds
  induction ds with
  | nil =>
    intro acc acc' h _ _
    unfold discDirs at h
    cases h
    exact ⟨by intro d hd; simp at hd, fun p _ => rfl⟩
  | cons d ds ih =>
    intro acc acc' h hfresh hnd
    unfold discDirs at h
    match hv : discDir acc d with
    | .error e => rw [hv] at h; exact absurd h (by simp)
    | .ok accm =>
    rw [hv] at h
    obtain ⟨_, _, hfiles⟩ := discDir_ok hv
    have hnd' : (d.files.map SkillFile.path ++ allFilePaths ds).Nodup := by
      simpa [allFilePaths, List.flatten] using hnd
    rw [List.nodup_append] at hnd'
    obtain ⟨hnd1, hnd2, hdisj⟩ := hnd'
    obtain ⟨hgood1, hpres1⟩ := discFiles_cache_spec d.files acc accm hfiles
      (hfresh d (by simp)) hnd1
    have hfreshm : ∀ d2 ∈ ds, ∀ f ∈ d2.files, accm.cache.lookup f.path = none := by
      intro d2 hd2 f hf
      have hnotin : ∀ g ∈ d.files, g.path ≠ f.path := by
        intro g hg hgf
        exact hdisj (List.mem_map_of_mem SkillFile.path hg)
          (by
            rw [hgf]
            exact (List.mem_flatten).mpr
              ⟨d2.files.map SkillFile.path,
                List.mem_map_of_mem (fun x => x.files.map SkillFile.path) hd2,
                List.mem_map_of_mem SkillFile.path hf⟩)
      rw [hpres1 f.path hnotin]
      exact hfresh d2 (List.mem_cons_of_mem d hd2) f hf
    obtain ⟨ihgood, ihpres⟩ := ih accm acc' h hfreshm hnd2
    constructor
    · intro d2 hd2
      rcases List.mem_cons.mp hd2 with hdd | hdtail
      · subst hdd
        intro f hf mt sz hst
        obtain ⟨m, hpm, hlm⟩ := hgood1 f hf mt sz hst
        refine ⟨m, hpm, ?_⟩
        have hnotin2 : ∀ d3 ∈ ds, ∀ g ∈ d3.files, g.path ≠ f.path := by
          intro d3 hd3 g hg hgf
          exact hdisj (List.mem_map_of_mem SkillFile.path hf)
            (by
              rw [← hgf]
              exact (List.mem_flatten).mpr
                ⟨d3.files.map SkillFile.path,
                  List.mem_map_of_mem (fun x => x.files.map SkillFile.path) hd3,
                  List.mem_map_of_mem SkillFile.path hg⟩)
        rw [ihpres f.path hnotin2]
        exact hlm
      · exact ihgood d2 hdtail
    · intro p hpne
      rw [ihpres p (fun d2 hd2 => hpne d2 (List.mem_cons_of_mem d hd2)),
        hpres1 p (hpne d (by simp))]

theorem discDirs_cached_run :
    ∀ (ds : List SkillsDir) (seen : List String) (skills : List DiscoveredSkill)
      (cRun1 c1 : Cache) (acc' : DiscAcc),
      discDirs ⟨seen, skills, cRun1⟩ ds = .ok acc' →
      (∀ d ∈ ds, ∀ f ∈ d.files, cRun1.lookup f.path = none) →
      (allFilePaths ds).Nodup →
      (∀ d ∈ ds, GoodCache c1 d.files) →
      discDirs ⟨seen, skills, c1⟩ ds = .ok ⟨acc'.seen, acc'.skills, c1⟩ := by
  intro ds
  induction ds with
  | nil =>
    intro seen skills cRun1 c1 acc' h _ _ _
    unfold discDirs at h
    cases h
    rfl
  | cons d ds ih =>
    intro seen skills cRun1 c1 acc' h hfresh hnd hgood
    unfold discDirs at h
    match hv : discDir ⟨seen, skills, cRun1⟩ d with
    | .error e => rw [hv] at h; exact absurd h (by simp)
    | .ok accm =>
    rw [hv] at h
    obtain ⟨hex, hisdir, hfiles⟩ := discDir_ok hv
    have hnd' : (d.files.map SkillFile.path ++ allFilePaths ds).Nodup := by
      simpa [allFilePaths, List.flatten] using hnd
    rw [List.nodup_append] at hnd'
    obtain ⟨hnd1, hnd2, hdisj⟩ := hnd'
    have hrun2files := discFiles_cached_run d.files seen skills cRun1 c1 accm
      hfiles (hfresh d (by simp)) hnd1 (hgood d (by simp))
    obtain ⟨hgood1, hpres1⟩ := discFiles_cache_spec d.files ⟨seen, skills, cRun1⟩
      accm hfiles (hfresh d (by simp)) hnd1
    have hfreshm : ∀ d2 ∈ ds, ∀ f ∈ d2.files, accm.cache.lookup f.path = none := by
      intro d2 hd2 f hf
      have hnotin : ∀ g ∈ d.files, g.path ≠ f.path := by
        intro g hg hgf
        exact hdisj (List.mem_map_of_mem SkillFile.path hg)
          (by
            rw [hgf]
            exact (List.mem_flatten).mpr
              ⟨d2.files.map SkillFile.path,
                List.mem_map_of_mem (fun x => x.files.map SkillFile.path) hd2,
                List.mem_map_of_mem SkillFile.path hf⟩)
      rw [hpres1 f.path hnotin]
      exact hfresh d2 (List.mem_cons_of_mem d hd2) f hf
    have ih2 := ih accm.seen accm.skills accm.cache c1 acc' (by
        have : accm = ⟨accm.seen, accm.skills, accm.cache⟩ := rfl
        rw [← this]
        exact h)
      hfreshm hnd2 (fun d2 hd2 => hgood d2 (List.mem_cons_of_mem d hd2))
    unfold discDirs discDir
    simp only [hex, hisdir, not_true, ite_false, if_neg]
    rw [hrun2files]
    exact ih2

/-- C9: re-running discovery with the persisted cache over an unchanged tree
(same directories, same files, same headers, same stat results — with the
real-filesystem fact that distinct descriptor files have distinct paths)
returns exactly the skill list and cache of the uncached first scan, with
every stat-successful file served from the cache entries the first run
wrote. -/
theorem discoverSkills_cache_idempotent (dirs : List SkillsDir)
    (skills : List DiscoveredSkill) (c1 : Cache)
    (hnd : (allFilePaths dirs).Nodup)
    (h : discoverSkills [] dirs = .ok (skills, c1)) :
    discoverSkills c1 dirs = .ok (skills, c1) := by
  unfold discoverSkills at h ⊢
  match hv : discDirs { seen := [], skills := [], cache := [] } dirs with
  | .error e => rw [hv] at h; exact absurd h (by simp)
  | .ok acc =>
  rw [hv] at h
  simp only [Except.ok.injEq, Prod.mk.injEq] at h
  obtain ⟨hsk, hc⟩ := h
  have hfresh : ∀ d ∈ dirs, ∀ f ∈ d.files,
      (([] : Cache).lookup f.path) = none := by
    intro d _ f _
    rfl
  have hgood := (discDirs_cache_spec dirs _ acc hv hfresh hnd).1
  rw [hc] at hgood
  have h2 := discDirs_cached_run dirs [] [] [] c1 acc hv hfresh hnd hgood
  rw [h2, hsk]

/-- C9 (witness): a concrete one-skill tree with a successful stat: the
uncached scan writes a cache entry, and the cached re-scan hits it and
returns identical metadata. -/
theorem discoverSkills_cache_idempotent_witness :
    discoverSkills
      [("skills/a/SKILL.md",
        { mtimeNs := 5, size := 10
          metadata := { name := "skill-a", description := "D" } })]
      [{ path := "skills", dirExists := true, isDir := true
         files := [{ path := "skills/a/SKILL.md", dirName := "a"
                     skillDir := ["skills", "a"], stat := some (5, 10)
                     header := .dict [("name", .str "skill-a"),
                                      ("description", .str "D")]
                     body := "", hasScripts := false, hasReferences := false
                     hasAssets := false }] }] =
      .ok ([{ name := "skill-a", description := "D", license := none
              compatibility := none, tools := none, metadata := []
              path := "skills/a/SKILL.md", skillDir := ["skills", "a"]
              hasScripts := false, hasReferences := false, hasAssets := false }],
        [("skills/a/SKILL.md",
          { mtimeNs := 5, size := 10
            metadata := { name := "skill-a", description := "D" } })]) := by
  exact discoverSkills_cache_idempotent _ _ _ (by simp [allFilePaths]) rfl

/-! ## `graph/supervisor.py`: the routing controller

`_parse_supervisor_response` regex-extracts a brace fragment and feeds it to
`json.loads`.  The JSON model below covers the values reachable from that
fragment (no `}` inside, so objects never nest); JSON numbers are modelled as
integers. -/

/-- A Python/JSON value as `json.loads` returns it. -/
inductive JVal where
  | null
  | bool (b : Bool)
  | num (n : Int)
  | str (s : String)
  | arr (xs : List JVal)
  | obj (membs : List (String × JVal))

/-- JSON whitespace skipping. -/
def skipWs : List Char → List Char
  | c :: rest =>
    if c = ' ' ∨ c = Char.ofNat 9 ∨ c = Char.ofNat 10 ∨ c = Char.ofNat 13 then
      skipWs rest
    else c :: rest
  | [] => []

/-- Hex digit value. -/
def hexVal (c : Char) : Option Nat :=
  if Char.ofNat 48 ≤ c ∧ c ≤ Char.ofNat 57 then some (c.toNat - 48)
  else if Char.ofNat 97 ≤ c ∧ c ≤ Char.ofNat 102 then some (c.toNat - 87)
  else if Char.ofNat 65 ≤ c ∧ c ≤ Char.ofNat 70 then some (c.toNat - 55)
  else none

/-- Parse the remainder of a JSON string literal (after the opening quote),
returning the decoded characters and the rest of the input. -/
def parseJStr (acc : List Char) : List Char → Option (List Char × List Char)
  | [] => none
  | c :: rest =>
    if c = Char.ofNat 34 then some (acc.reverse, rest)
    else if c = Char.ofNat 92 then
      match rest with
      | [] => none
      | e :: rest2 =>
        if e = Char.ofNat 34 then parseJStr (Char.ofNat 34 :: acc) rest2
        else if e = Char.ofNat 92 then parseJStr (Char.ofNat 92 :: acc) rest2
        else if e = Char.ofNat 47 then parseJStr (Char.ofNat 47 :: acc) rest2
        else if e = 'n' then parseJStr (Char.ofNat 10 :: acc) rest2
        else if e = 't' then parseJStr (Char.ofNat 9 :: acc) rest2
        else if e = 'r' then parseJStr (Char.ofNat 13 :: acc) rest2
        else if e = 'b' then parseJStr (Char.ofNat 8 :: acc) rest2
        else if e = 'f' then parseJStr (Char.ofNat 12 :: acc) rest2
        else if e = 'u' then
          match rest2 with
          | h1 :: h2 :: h3 :: h4 :: rest3 =>
            match hexVal h1, hexVal h2, hexVal h3, hexVal h4 with
            | some a, some b, some c2, some d =>
              parseJStr (Char.ofNat (((a * 16 + b) * 16 + c2) * 16 + d) :: acc) rest3
            | _, _, _, _ => none
          | _ => none
        else none
    else parseJStr (c :: acc) rest

/-- Parse a run of decimal digits. -/
def parseDigits (acc : Nat) : List Char → (Nat × List Char)
  | c :: rest =>
    if Char.ofNat 48 ≤ c ∧ c ≤ Char.ofNat 57 then
      parseDigits (acc * 10 + (c.toNat - 48)) rest
    else (acc, c :: rest)
  | [] => (acc, [])

/-- Parse a JSON integer (this model rejects fractions and exponents). -/
def parseJNum : List Char → Option (Int × List Char)
  | c :: rest =>
    if c = Char.ofNat 45 then
      match rest with
      | d :: _ =>
        if Char.ofNat 48 ≤ d ∧ d ≤ Char.ofNat 57 then
          let (n, r) := parseDigits 0 rest
          some (-(n : Int), r)
        else none
      | [] => none
    else if Char.ofNat 48 ≤ c ∧ c ≤ Char.ofNat 57 then
      let (n, r) := parseDigits 0 (c :: rest)
      some ((n : Int), r)
    else none
  | [] => none

mutual

/-- Parse one JSON value. -/
def parseJVal : Nat → List Char → Option (JVal × List Char)
  | 0, _ => none
  | fuel + 1, cs =>
    match skipWs cs with
    | [] => none
    | c :: rest =>
      if c = Char.ofNat 34 then
        match parseJStr [] rest with
        | some (s, r) => some (.str (String.mk s), r)
        | none => none
      else if c = 't' then
        match rest with
        | 'r' :: 'u' :: 'e' :: r => some (.bool true, r)
        | _ => none
      else if c = 'f' then
        match rest with
        | 'a' :: 'l' :: 's' :: 'e' :: r => some (.bool false, r)
        | _ => none
      else if c = 'n' then
        match rest with
        | 'u' :: 'l' :: 'l' :: r => some (.null, r)
        | _ => none
      else if c = Char.ofNat 91 then
        match skipWs rest with
        | d :: r2 =>
          if d = Char.ofNat 93 then some (.arr [], r2)
          else
            match parseJArrItems fuel (d :: r2) with
            | some (xs, r) => some (.arr xs, r)
            | none => none
        | [] => none
      else if c = Char.ofNat 123 then
        match skipWs rest with
        | d :: r2 =>
          if d = Char.ofNat 125 then some (.obj [], r2)
          else
            match parseJObjItems fuel (d :: r2) with
            | some (ms, r) => some (.obj ms, r)
            | none => none
        | [] => none
      else
        match parseJNum (c :: rest) with
        | some (n, r) => some (.num n, r)
        | none => none

/-- Parse the comma-separated items of a JSON array, then `]`. -/
def parseJArrItems : Nat → List Char → Option (List JVal × List Char)
  | 0, _ => none
  | fuel + 1, cs =>
    match parseJVal fuel cs with
    | none => none
    | some (v, r) =>
      match skipWs r with
      | c :: r2 =>
        if c = Char.ofNat 44 then
          match parseJArrItems fuel r2 with
          | some (xs, r3) => some (v :: xs, r3)
          | none => none
        else if c = Char.ofNat 93 then some ([v], r2)
        else none
      | [] => none

/-- Parse the comma-separated members of a JSON object, then the closing
brace. -/
def parseJObjItems : Nat → List Char → Option (List (String × JVal) × List Char)
  | 0, _ => none
  | fuel + 1, cs =>
    match skipWs cs with
    | c :: r =>
      if c = Char.ofNat 34 then
        match parseJStr [] r with
        | some (k, r2) =>
          match skipWs r2 with
          | d :: r3 =>
            if d = Char.ofNat 58 then
              match parseJVal fuel r3 with
              | some (v, r4) =>
                match skipWs r4 with
                | e :: r5 =>
                  if e = Char.ofNat 44 then
                    match parseJObjItems fuel r5 with
                    | some (ms, r6) => some ((String.mk k, v) :: ms, r6)
                    | none => none
                  else if e = Char.ofNat 125 then
                    some ([(String.mk k, v)], r5)
                  else none
                | [] => none
              | none => none
            else none
          | [] => none
        | none => none
      else none
    | [] => none

end

/-- `json.loads` on a candidate fragment (full input must be consumed). -/
def jsonLoads (s : String) : Option JVal :=
  match parseJVal (s.length + 1) s.data with
  | some (v, rest) => if (skipWs rest).isEmpty then some v else none
  | none => none

/-- `re.search(r'\x7b[^\x7d]+\x7d', content, re.DOTALL)`: the leftmost
opening brace followed by at least one non-closing-brace character and a
closing brace. -/
def extractBraces : List Char → Option (List Char)
  | [] => none
  | c :: rest =>
    if c = Char.ofNat 123 then
      let body := rest.takeWhile (fun ch => ch ≠ Char.ofNat 125)
      if body.isEmpty then extractBraces rest
      else if body.length < rest.length then
        some (Char.ofNat 123 :: (body ++ [Char.ofNat 125]))
      else extractBraces rest
    else extractBraces rest

/-- The brace fragment `_parse_supervisor_response` hands to `json.loads`. -/
def extractJsonCandidate (content : String) : Option String :=
  (extractBraces content.data).map String.mk

/-- Python `str()` / f-string rendering of a decoded JSON value (`str` values
render as themselves; containers are abstract). -/
def pyStrJ : JVal → String
  | .str s => s
  | .bool true => "True"
  | .bool false => "False"
  | .null => "None"
  | .num _ => "<number>"
  | .arr _ => "[...]"
  | .obj _ => "\x7b...\x7d"

/-- Python `dict.get` on a decoded JSON object (later duplicate keys win, as
in `json.loads`). -/
def jGet (membs : List (String × JVal)) (k : String) (dflt : JVal) : JVal :=
  match membs.reverse.lookup k with
  | some v => v
  | none => dflt

/-- Tier 1 of `_parse_supervisor_response` (supervisor.py lines 208-218):
regex-extract a brace fragment and decode it with `json.loads`; on success
return `data.get("next", "FINISH")` and `data.get("reasoning", ...)`. -/
def supervisorJsonTier (content : String) : Option (JVal × JVal) :=
  match extractJsonCandidate content with
  | some s =>
    match jsonLoads s with
    | some (.obj membs) =>
      some (jGet membs "next" (.str "FINISH"),
        jGet membs "reasoning" (.str "No reasoning provided"))
    | _ => none
  | none => none

/-- `_parse_supervisor_response` (supervisor.py lines 195-231): JSON tier,
then the literal `FINISH` substring, then the first known worker name that
occurs as a substring (case-insensitive), then the synthesized default. -/
def parseSupervisorResponse (content : String)
    (skillsMetadata : List DiscoveredSkill) : JVal × JVal :=
  match supervisorJsonTier content with
  | some r => r
  | none =>
    let validWorkers := skillsMetadata.map DiscoveredSkill.name
    let contentLower := pyLower content
    if strContains contentLower "finish" then
      (.str "FINISH", .str "Parsed FINISH from response")
    else
      match validWorkers.find? (fun w => strContains contentLower (pyLower w)) with
      | some w => (.str w, .str ("Parsed " ++ w ++ " from response"))
      | none =>
        (.str "FINISH", .str "Could not parse response, defaulting to FINISH")

/-- What the model call produced: a structured `SupervisorDecision` (its
pydantic fields are strings), or raw free text for the fallback decoder. -/
inductive LlmDecision where
  | structured (next reasoning : String)
  | freeText (content : String)

/-- The decision pair reaching the validation step of `supervisor_node`
(supervisor.py lines 152-161). -/
def supervisorDecide (skillsMetadata : List DiscoveredSkill) :
    LlmDecision → JVal × JVal
  | .structured n r => (.str n, .str r)
  | .freeText content => parseSupervisorResponse content skillsMetadata

/-- The state update `supervisor_node` returns. -/
structure SupervisorUpdate where
  next : String
  previousSpecialist : Option String
  supervisorReasoning : JVal

/-- The validation and context-preservation tail of `supervisor_node`
(supervisor.py lines 163-192): an unrecognized `next` is replaced by
`"FINISH"` with a diagnostic reasoning; routing to a worker records it as
the new previous specialist, `"FINISH"` leaves the field unchanged. -/
def validateDecision (skillsMetadata : List DiscoveredSkill)
    (previousSpecialist : Option String) (nextW reasoning : JVal) :
    SupervisorUpdate :=
  let validWorkers := (skillsMetadata.map DiscoveredSkill.name) ++ ["FINISH"]
  let isValid : Bool := match nextW with
    | .str s => validWorkers.contains s
    | _ => false
  let nextV : String × JVal :=
    if isValid then
      (match nextW with | .str s => s | _ => "FINISH", reasoning)
    else
      ("FINISH",
        .str ("Invalid worker '" ++ pyStrJ nextW ++ "' specified, defaulting to FINISH"))
  let newPrev := if nextV.1 ≠ "FINISH" then some nextV.1 else previousSpecialist
  { next := nextV.1, previousSpecialist := newPrev
    supervisorReasoning := nextV.2 }

/-- `supervisor_node` (supervisor.py lines 100-192) after the model call. -/
def supervisorNode (skillsMetadata : List DiscoveredSkill)
    (previousSpecialist : Option String) (d : LlmDecision) : SupervisorUpdate :=
  let (n, r) := supervisorDecide skillsMetadata d
  validateDecision skillsMetadata previousSpecialist n r

/-- `route_supervisor` (supervisor.py lines 234-251): `state.get("next",
"FINISH")`, `"FINISH"` routes to `"end"`. -/
def routeSupervisor (next? : Option String) : String :=
  let nextNode := next?.getD "FINISH"
  if nextNode = "FINISH" then "end" else nextNode

/-- C3: every validated decision writes a `next` that is a catalog name or
`"FINISH"`; an unrecognized decided value is replaced by `"FINISH"` together
with the diagnostic reasoning naming the invalid value; and routing a state
carrying no decision resolves to termination. -/
theorem supervisorNode_validates_next :
    (∀ (md : List DiscoveredSkill) (prev : Option String) (nextW reasoning : JVal),
        (validateDecision md prev nextW reasoning).next = "FINISH" ∨
        (validateDecision md prev nextW reasoning).next ∈
          md.map DiscoveredSkill.name) ∧
    (∀ (md : List DiscoveredSkill) (prev : Option String) (nextW reasoning : JVal),
        (match nextW with
          | .str s => ((md.map DiscoveredSkill.name) ++ ["FINISH"]).contains s
          | _ => false) = false →
        (validateDecision md prev nextW reasoning).next = "FINISH" ∧
        (validateDecision md prev nextW reasoning).supervisorReasoning =
          .str ("Invalid worker '" ++ pyStrJ nextW ++
            "' specified, defaulting to FINISH")) ∧
    routeSupervisor none = "end" := by
  refine ⟨?_, ?_, rfl⟩
  · intro md prev nextW reasoning
    unfold validateDecision
    match nextW with
    | .str s =>
      cases hv : (((md.map DiscoveredSkill.name) ++ ["FINISH"]).contains s) with
      | true =>
        have hmem : s ∈ (md.map DiscoveredSkill.name) ++ ["FINISH"] := by
          simpa using hv
        simp only [hv]
        rcases List.mem_append.mp hmem with h1 | h2
        · exact Or.inr h1
        · simp only [List.mem_singleton] at h2
          exact Or.inl h2
      | false =>
        simp only [hv]
        left
        rfl
    | .null => left; rfl
    | .bool b => left; rfl
    | .num n => left; rfl
    | .arr xs => left; rfl
    | .obj ms => left; rfl
  · intro md prev nextW reasoning hinvalid
    unfold validateDecision
    match nextW, hinvalid with
    | .str s, h =>
      have h2 : (((md.map DiscoveredSkill.name) ++ ["FINISH"]).contains s) = false := h
      simp only [h2]
      exact ⟨rfl, rfl⟩
    | .null, h => exact ⟨rfl, rfl⟩
    | .bool b, h => exact ⟨rfl, rfl⟩
    | .num n, h => exact ⟨rfl, rfl⟩
    | .arr xs, h => exact ⟨rfl, rfl⟩
    | .obj ms, h => exact ⟨rfl, rfl⟩

/-- C3 (witness): a decision naming the unknown worker `nonexistent-skill`
against a one-skill catalog is replaced with `FINISH` and the diagnostic
reasoning, and the empty routing state terminates. -/
theorem supervisorNode_validates_next_witness :
    (validateDecision
        [{ name := "skill-a", description := "d", license := none
           compatibility := none, tools := none, metadata := []
           path := "p", skillDir := ["skills", "skill-a"], hasScripts := false
           hasReferences := false, hasAssets := false }]
        none (.str "nonexistent-skill") (.str "Testing invalid skill")).next =
      "FINISH" ∧
    (validateDecision
        [{ name := "skill-a", description := "d", license := none
           compatibility := none, tools := none, metadata := []
           path := "p", skillDir := ["skills", "skill-a"], hasScripts := false
           hasReferences := false, hasAssets := false }]
        none (.str "nonexistent-skill")
        (.str "Testing invalid skill")).supervisorReasoning =
      .str "Invalid worker 'nonexistent-skill' specified, defaulting to FINISH" ∧
    routeSupervisor none = "end" := by
  have h := supervisorNode_validates_next
  have h2 := h.2.1
    [{ name := "skill-a", description := "d", license := none
       compatibility := none, tools := none, metadata := []
       path := "p", skillDir := ["skills", "skill-a"], hasScripts := false
       hasReferences := false, hasAssets := false }]
    none (.str "nonexistent-skill") (.str "Testing invalid skill") rfl
  exact ⟨h2.1, h2.2, h.2.2⟩

/-- C4: whenever the validated `next` is not `"FINISH"`, the update records
it as the new previous specialist; when it is `"FINISH"`, the previous
specialist is left at its prior value — for every catalog, prior state and
model decision. -/
theorem supervisorNode_previous_specialist (md : List DiscoveredSkill)
    (prev : Option String) (d : LlmDecision) :
    ((supervisorNode md prev d).next ≠ "FINISH" →
      (supervisorNode md prev d).previousSpecialist =
        some (supervisorNode md prev d).next) ∧
    ((supervisorNode md prev d).next = "FINISH" →
      (supervisorNode md prev d).previousSpecialist = prev) := by
  unfold supervisorNode
  obtain ⟨n, r⟩ := supervisorDecide md d
  simp only
  unfold validateDecision
  constructor
  · intro hne
    simp only at hne ⊢
    rw [if_pos hne]
  · intro heq
    simp only at heq ⊢
    rw [heq]
    simp

/-- C4 (witness): routing to `skill-a` records it as previous specialist;
a `FINISH` decision leaves the prior specialist `skill-b` unchanged. -/
theorem supervisorNode_previous_specialist_witness :
    (supervisorNode
        [{ name := "skill-a", description := "d", license := none
           compatibility := none, tools := none, metadata := []
           path := "p", skillDir := ["skills", "skill-a"], hasScripts := false
           hasReferences := false, hasAssets := false }]
        (some "skill-b") (.structured "skill-a" "r")).previousSpecialist =
      some "skill-a" ∧
    (supervisorNode
        [{ name := "skill-a", description := "d", license := none
           compatibility := none, tools := none, metadata := []
           path := "p", skillDir := ["skills", "skill-a"], hasScripts := false
           hasReferences := false, hasAssets := false }]
        (some "skill-b") (.structured "FINISH" "r")).previousSpecialist =
      some "skill-b" := by
  constructor
  · have h := (supervisorNode_previous_specialist
      [{ name := "skill-a", description := "d", license := none
         compatibility := none, tools := none, metadata := []
         path := "p", skillDir := ["skills", "skill-a"], hasScripts := false
         hasReferences := false, hasAssets := false }]
      (some "skill-b") (.structured "skill-a" "r")).1
    rw [h (by decide)]
    rfl
  · have h := (supervisorNode_previous_specialist
      [{ name := "skill-a", description := "d", license := none
         compatibility := none, tools := none, metadata := []
         path := "p", skillDir := ["skills", "skill-a"], hasScripts := false
         hasReferences := false, hasAssets := false }]
      (some "skill-b") (.structured "FINISH" "r")).2
    rw [h (by decide)]

/-- C5 (counterexample): the claim gives a known worker name priority over
the literal `FINISH` in the substring tier.  For a response naming both the
catalog worker `skill-a` and `finish`, the decoder returns `FINISH`: the
code checks the `finish` substring before scanning worker names. -/
theorem parseSupervisorResponse_counterexample :
    parseSupervisorResponse "Route to skill-a and then finish"
        [{ name := "skill-a", description := "d", license := none
           compatibility := none, tools := none, metadata := []
           path := "p", skillDir := ["skills", "skill-a"], hasScripts := false
           hasReferences := false, hasAssets := false }] =
      (.str "FINISH", .str "Parsed FINISH from response") ∧
    strContains (pyLower "Route to skill-a and then finish")
        (pyLower "skill-a") = true :=
  ⟨rfl, rfl⟩

/-- C5 (amended): the free-text decoder applies three tiers in fixed
priority: first decode a regex-extracted JSON object from the response (its
`next`/`reasoning` members with the coded defaults); if that fails,
substring-match the literal `FINISH` before any known worker name (`FINISH`
takes priority when both appear), then the first catalog worker whose
lowercased name occurs in the lowercased response; if nothing matches,
default to `FINISH` with the synthesized reasoning string. -/
theorem parseSupervisorResponse_tiers (content : String)
    (md : List DiscoveredSkill) :
    (∀ s membs, extractJsonCandidate content = some s →
      jsonLoads s = some (.obj membs) →
      parseSupervisorResponse content md =
        (jGet membs "next" (.str "FINISH"),
          jGet membs "reasoning" (.str "No reasoning provided"))) ∧
    (supervisorJsonTier content = none →
      strContains (pyLower content) "finish" = true →
      parseSupervisorResponse content md =
        (.str "FINISH", .str "Parsed FINISH from response")) ∧
    (supervisorJsonTier content = none →
      strContains (pyLower content) "finish" = false →
      ∀ w, (md.map DiscoveredSkill.name).find?
          (fun w => strContains (pyLower content) (pyLower w)) = some w →
        parseSupervisorResponse content md =
          (.str w, .str ("Parsed " ++ w ++ " from response"))) ∧
    (supervisorJsonTier content = none →
      strContains (pyLower content) "finish" = false →
      (md.map DiscoveredSkill.name).find?
          (fun w => strContains (pyLower content) (pyLower w)) = none →
      parseSupervisorResponse content md =
        (.str "FINISH", .str "Could not parse response, defaulting to FINISH")) := by
  refine ⟨?_, ?_, ?_, ?_⟩
  · intro s membs hex hload
    unfold parseSupervisorResponse supervisorJsonTier
    simp only [hex, hload]
  · intro hjson hfin
    unfold parseSupervisorResponse
    rw [hjson]
    simp only [hfin, ite_true]
  · intro hjson hfin w hfind
    unfold parseSupervisorResponse
    rw [hjson]
    simp only [hfin, ite_false, Bool.false_eq_true, hfind]
  · intro hjson hfin hfind
    unfold parseSupervisorResponse
    rw [hjson]
    simp only [hfin, ite_false, Bool.false_eq_true, hfind]

/-- C5 (witness): the three tiers at concrete inputs: a JSON response decodes
to its `next`/`reasoning` members; prose naming `skill-b` (without `finish`
and without JSON) decodes to `skill-b`. -/
theorem parseSupervisorResponse_tiers_witness :
    parseSupervisorResponse
        "Decision: \x7b\"next\": \"skill-a\", \"reasoning\": \"R\"\x7d"
        [{ name := "skill-a", description := "d", license := none
           compatibility := none, tools := none, metadata := []
           path := "p", skillDir := ["skills", "skill-a"], hasScripts := false
           hasReferences := false, hasAssets := false }] =
      (.str "skill-a", .str "R") ∧
    parseSupervisorResponse "I think we should route to skill-b for file operations"
        [{ name := "skill-a", description := "d", license := none
           compatibility := none, tools := none, metadata := []
           path := "p", skillDir := ["skills", "skill-a"], hasScripts := false
           hasReferences := false, hasAssets := false },
         { name := "skill-b", description := "e", license := none
           compatibility := none, tools := none, metadata := []
           path := "q", skillDir := ["skills", "skill-b"], hasScripts := false
           hasReferences := false, hasAssets := false }] =
      (.str "skill-b", .str "Parsed skill-b from response") := by
  constructor
  · have h := (parseSupervisorResponse_tiers
      "Decision: \x7b\"next\": \"skill-a\", \"reasoning\": \"R\"\x7d"
      [{ name := "skill-a", description := "d", license := none
         compatibility := none, tools := none, metadata := []
         path := "p", skillDir := ["skills", "skill-a"], hasScripts := false
         hasReferences := false, hasAssets := false }]).1
      "\x7b\"next\": \"skill-a\", \"reasoning\": \"R\"\x7d"
      [("next", .str "skill-a"), ("reasoning", .str "R")] rfl rfl
    exact h
  · have h := (parseSupervisorResponse_tiers
      "I think we should route to skill-b for file operations"
      [{ name := "skill-a", description := "d", license := none
         compatibility := none, tools := none, metadata := []
         path := "p", skillDir := ["skills", "skill-a"], hasScripts := false
         hasReferences := false, hasAssets := false },
       { name := "skill-b", description := "e", license := none
         compatibility := none, tools := none, metadata := []
         path := "q", skillDir := ["skills", "skill-b"], hasScripts := false
         hasReferences := false, hasAssets := false }]).2.2.1
      rfl rfl "skill-b" rfl
    exact h

/-! ## `graph/nodes.py`: the worker tool-execution node -/

/-- A LangChain `ToolMessage`. -/
structure ToolMessage where
  content : String
  toolCallId : String
  name : String

/-- The `args` of a tool call: a mapping, a bare string, or anything else. -/
inductive ToolArgs where
  | adict (m : List (String × String))
  | astr (s : String)
  | other

/-- One requested tool call. -/
structure ToolCall where
  name : String
  args : ToolArgs
  id : String

/-- A raised `SecurityError` from the sandbox check (nodes.py lines
868-876). -/
structure SecViolation where
  filePath : String
  skillName : String
deriving DecidableEq, Repr

/-- The state slices `worker_tool_node` copies and threads (nodes.py lines
719-722). -/
structure ExecState where
  activeSkills : List String
  loadedSkills : List String
  skillLoaders : List (String × DiscoveredSkill)

/-- `_handle_load_skill` (nodes.py lines 784-830): locate the named skill in
the catalog, add it to the active and loaded lists and store its metadata in
`skill_loaders`; failures are rendered as `ToolMessage`s. -/
def handleLoadSkill (args : ToolArgs) (toolId : String)
    (skillsMetadata : List DiscoveredSkill) (st : ExecState) :
    ExecState × ToolMessage :=
  let skillName? : Option String :=
    match args with
    | .adict m => m.lookup "skill_name"
    | .astr s => some s
    | .other => none
  match skillName? with
  | none => (st, ⟨"Error: missing skill_name", toolId, "load_skill"⟩)
  | some sn =>
    if sn = "" then (st, ⟨"Error: missing skill_name", toolId, "load_skill"⟩)
    else
      match skillsMetadata.find? (fun x => x.name == sn) with
      | none => (st, ⟨"Error: unknown skill '" ++ sn ++ "'", toolId, "load_skill"⟩)
      | some meta =>
        ({ activeSkills :=
             if sn ∈ st.activeSkills then st.activeSkills
             else st.activeSkills ++ [sn]
           loadedSkills :=
             if sn ∈ st.loadedSkills then st.loadedSkills
             else st.loadedSkills ++ [sn]
           skillLoaders := dictInsert st.skillLoaders sn meta },
          ⟨"Loaded skill '" ++ sn ++ "'", toolId, "load_skill"⟩)

/-- The sandboxed tail of `_handle_read_skill_resource` (nodes.py lines
868-889), given the resolved metadata: containment check, then existing
regular file or a not-found `ToolMessage`; a containment failure raises. -/
def readWithMeta (fs : Fs) (meta : DiscoveredSkill) (sn fp : String)
    (toolId : String) : Except SecViolation ToolMessage :=
  let skillRoot := resolvePath meta.skillDir
  let candidate := resolvePath (joinPath skillRoot (parsePath fp))
  if skillRoot.isPrefixOf candidate then
    match fsFile? fs candidate with
    | some contents => .ok ⟨contents, toolId, "read_skill_resource"⟩
    | none =>
      .ok ⟨"Error: file not found '" ++ fp ++ "'", toolId, "read_skill_resource"⟩
  else .error ⟨fp, sn⟩

/-- `_handle_read_skill_resource` (nodes.py lines 833-889): argument checks,
then the loaded-skill mapping with fallback to the discovered catalog, then
the sandboxed read. -/
def handleReadSkillResource (fs : Fs) (args : ToolArgs) (toolId : String)
    (skillsMetadata : List DiscoveredSkill)
    (skillLoaders : List (String × DiscoveredSkill)) :
    Except SecViolation ToolMessage :=
  let sn? : Option String :=
    match args with | .adict m => m.lookup "skill_name" | _ => none
  let fp? : Option String :=
    match args with | .adict m => m.lookup "file_path" | _ => none
  match sn?, fp? with
  | some sn, some fp =>
    if sn = "" ∨ fp = "" then
      .ok ⟨"Error: expected skill_name and file_path", toolId,
        "read_skill_resource"⟩
    else
      match (match skillLoaders.lookup sn with
             | some m => some m
             | none => skillsMetadata.find? (fun x => x.name == sn)) with
      | none =>
        .ok ⟨"Error: unknown skill '" ++ sn ++ "'", toolId, "read_skill_resource"⟩
      | some meta => readWithMeta fs meta sn fp toolId
  | _, _ =>
    .ok ⟨"Error: expected skill_name and file_path", toolId,
      "read_skill_resource"⟩

/-- One bound generic tool: its `invoke` either returns a rendered result or
raises (the raised case is what the generic handler converts to a
`ToolMessage`). -/
abbrev BoundTool := ToolArgs → Except String String

/-- Dispatch of one call inside `worker_tool_node`'s loop (nodes.py lines
726-771): the two core tools are handled specially — only
`read_skill_resource` can raise —, bound tools have their exceptions
rendered as `ToolMessage`s, unknown names yield `Tool ... not found`. -/
def workerToolStep (fs : Fs) (skillsMetadata : List DiscoveredSkill)
    (tools : List (String × BoundTool)) (st : ExecState) (c : ToolCall) :
    Except SecViolation (ExecState × ToolMessage) :=
  if c.name = "load_skill" then
    .ok (handleLoadSkill c.args c.id skillsMetadata st)
  else if c.name = "read_skill_resource" then
    match handleReadSkillResource fs c.args c.id skillsMetadata st.skillLoaders with
    | .error v => .error v
    | .ok msg => .ok (st, msg)
  else
    match tools.lookup c.name with
    | some f =>
      .ok (st,
        match f c.args with
        | .ok result => ⟨result, c.id, c.name⟩
        | .error e => ⟨"Error executing " ++ c.name ++ ": " ++ e, c.id, c.name⟩)
    | none => .ok (st, ⟨"Tool " ++ c.name ++ " not found", c.id, c.name⟩)

/-- `worker_tool_node`'s loop over the batch of tool calls (nodes.py lines
725-778): collect one `ToolMessage` per call and thread the state; a raised
`SecurityError` aborts the node with no messages returned. -/
def workerToolNode (fs : Fs) (skillsMetadata : List DiscoveredSkill)
    (tools : List (String × BoundTool)) :
    ExecState → List ToolCall → Except SecViolation (List ToolMessage × ExecState)
  | st, [] => .ok ([], st)
  | st, c :: cs =>
    match workerToolStep fs skillsMetadata tools st c with
    | .error v => .error v
    | .ok (st2, msg) =>
      match workerToolNode fs skillsMetadata tools st2 cs with
      | .error v => .error v
      | .ok (msgs, stf) => .ok (msg :: msgs, stf)

/-- A call that reaches the containment check and fails it: a
`read_skill_resource` call with usable arguments naming a catalog skill
whose canonical candidate escapes the skill directory. -/
def escapingRead (skillsMetadata : List DiscoveredSkill) (c : ToolCall) : Bool :=
  c.name = "read_skill_resource" &&
  (match c.args with
   | .adict m =>
     match m.lookup "skill_name", m.lookup "file_path" with
     | some sn, some fp =>
       sn ≠ "" && fp ≠ "" &&
       (match skillsMetadata.find? (fun x => x.name == sn) with
        | some meta =>
          !((resolvePath meta.skillDir).isPrefixOf
            (resolvePath (joinPath (resolvePath meta.skillDir) (parsePath fp))))
        | none => false)
     | _, _ => false
   | _ => false)

/-- The data-model invariant of `skill_loaders` (spec §3: `skillInstances`
holds catalog descriptors): every stored entry is the catalog record of its
name.  `_handle_load_skill` only ever stores such entries. -/
def LoadersConsistent (skillsMetadata : List DiscoveredSkill)
    (loaders : List (String × DiscoveredSkill)) : Prop :=
  ∀ n m, loaders.lookup n = some m →
    skillsMetadata.find? (fun x => x.name == n) = some m

theorem workerToolStep_escaping {fs : Fs} {md : List DiscoveredSkill}
    {tools : List (String × BoundTool)} {st : ExecState} {c : ToolCall}
    (hcons : LoadersConsistent md st.skillLoaders)
    (hesc : escapingRead md c = true) :
    ∃ v, workerToolStep fs md tools st c = .error v := by
  unfold escapingRead at hesc
  rw [Bool.and_eq_true] at hesc
  obtain ⟨hname, hrest⟩ := hesc
  rw [decide_eq_true_eq] at hname
  match hargs : c.args with
  | .astr s => simp [hargs] at hrest
  | .other => simp [hargs] at hrest
  | .adict m =>
  simp only [hargs] at hrest
  match hsn : m.lookup "skill_name", hfp : m.lookup "file_path" with
  | none, _ => simp only [hsn] at hrest; simp at hrest
  | some sn, none => simp only [hsn, hfp] at hrest; simp at hrest
  | some sn, some fp =>
  simp only [hsn, hfp] at hrest
  simp only [Bool.and_eq_true, decide_eq_true_eq] at hrest
  obtain ⟨⟨hsne, hfpe⟩, hpre⟩ := hrest
  match hfind : md.find? (fun x => x.name == sn) with
  | none => simp only [hfind] at hpre; simp at hpre
  | some meta =>
  simp only [hfind] at hpre
  rw [Bool.not_eq_true'] at hpre
  refine ⟨⟨fp, sn⟩, ?_⟩
  unfold workerToolStep
  rw [hname]
  simp only [if_neg (by decide : ¬ ("read_skill_resource" = "load_skill")),
    ite_false, if_pos rfl, ite_true]
  unfold handleReadSkillResource
  simp only [hargs, hsn, hfp]
  rw [if_neg (by simp [hsne, hfpe])]
  have hmeta : (match st.skillLoaders.lookup sn with
      | some m2 => some m2
      | none => md.find? (fun x => x.name == sn)) = some meta := by
    match hl : st.skillLoaders.lookup sn with
    | some m2 =>
      have := hcons sn m2 hl
      rw [this] at hfind
      cases hfind
      rfl
    | none => exact hfind
  simp only [hmeta]
  unfold readWithMeta
  simp only [hpre]
  simp

theorem workerToolStep_consistent {fs : Fs} {md : List DiscoveredSkill}
    {tools : List (String × BoundTool)} {st st2 : ExecState} {c : ToolCall}
    {msg : ToolMessage} (hcons : LoadersConsistent md st.skillLoaders)
    (h : workerToolStep fs md tools st c = .ok (st2, msg)) :
    LoadersConsistent md st2.skillLoaders := by
  unfold workerToolStep at h
  by_cases hload : c.name = "load_skill"
  · rw [if_pos hload] at h
    injection h with h2
    unfold handleLoadSkill at h2
    match hsn : (match c.args with
        | .adict m => m.lookup "skill_name"
        | .astr s => some s
        | .other => none) with
    | none =>
      simp only [hsn] at h2
      cases h2
      exact hcons
    | some sn =>
      simp only [hsn] at h2
      by_cases hempty : sn = ""
      · rw [if_pos hempty] at h2
        cases h2
        exact hcons
      · rw [if_neg hempty] at h2
        match hfind : md.find? (fun x => x.name == sn) with
        | none =>
          simp only [hfind] at h2
          cases h2
          exact hcons
        | some meta =>
          simp only [hfind] at h2
          cases h2
          intro n m2 hl
          by_cases hn : n = sn
          · subst hn
            rw [lookup_dictInsert] at hl
            cases hl
            exact hfind
          · rw [lookup_dictInsert_ne _ _ _ _ hn] at hl
            exact hcons n m2 hl
  · rw [if_neg hload] at h
    by_cases hread : c.name = "read_skill_resource"
    · rw [if_pos hread] at h
      match hr : handleReadSkillResource fs c.args c.id md st.skillLoaders with
      | .error v => rw [hr] at h; exact absurd h (by simp)
      | .ok m =>
        rw [hr] at h
        injection h with h2
        cases h2
        exact hcons
    · rw [if_neg hread] at h
      match ht : tools.lookup c.name with
      | some f =>
        rw [ht] at h
        injection h with h2
        cases h2
        exact hcons
      | none =>
        rw [ht] at h
        injection h with h2
        cases h2
        exact hcons

/-- C2: a tool-call batch containing a sandbox-escaping `read_skill_resource`
call makes the whole worker tool-execution step fail with a raised
`SecurityError`: the node returns no `ToolResult` list at all (so none for
that call), because the sandbox check sits outside the generic
exception-to-`ToolMessage` conversion, which only wraps bound-tool
dispatch.  The loaders hypothesis is the data-model invariant that
`skill_loaders` holds catalog entries. -/
theorem workerToolNode_sandbox_propagates (fs : Fs)
    (md : List DiscoveredSkill) (tools : List (String × BoundTool))
    (st : ExecState) (calls : List ToolCall)
    (hcons : LoadersConsistent md st.skillLoaders)
    (hesc : ∃ c ∈ calls, escapingRead md c = true) :
    ∃ v, workerToolNode fs md tools st calls = .error v := by
  induction calls generalizing st with
  | nil => obtain ⟨c, hc, _⟩ := hesc; simp at hc
  | cons c cs ih =>
    obtain ⟨c0, hc0, hc0esc⟩ := hesc
    rcases List.mem_cons.mp hc0 with hhead | htail
    · subst hhead
      obtain ⟨v, hv⟩ := workerToolStep_escaping hcons hc0esc
      refine ⟨v, ?_⟩
      unfold workerToolNode
      rw [hv]
    · match hstep : workerToolStep fs md tools st c with
      | .error v =>
        refine ⟨v, ?_⟩
        unfold workerToolNode
        rw [hstep]
      | .ok (st2, msg) =>
        obtain ⟨v, hv⟩ := ih st2 (workerToolStep_consistent hcons hstep)
          ⟨c0, htail, hc0esc⟩
        refine ⟨v, ?_⟩
        unfold workerToolNode
        rw [hstep]
        simp only [hv]

/-- C2 (witness): a batch of one calculator call and one `../secret.txt`
read against the catalog skill `skill-a` makes the node raise, producing no
messages. -/
theorem workerToolNode_sandbox_propagates_witness :
    ∃ v, workerToolNode []
      [{ name := "skill-a", description := "d", license := none
         compatibility := none, tools := none, metadata := []
         path := "p", skillDir := ["skills", "skill-a"], hasScripts := false
         hasReferences := false, hasAssets := false }]
      [("calculator", fun _ => .ok "4")]
      { activeSkills := [], loadedSkills := [], skillLoaders := [] }
      [{ name := "calculator", args := .adict [("expression", "2+2")], id := "1" },
       { name := "read_skill_resource"
         args := .adict [("skill_name", "skill-a"),
                         ("file_path", "../secret.txt")], id := "2" }] =
      .error v := by
  apply workerToolNode_sandbox_propagates
  · intro n m h
    exact absurd h (by simp)
  · refine ⟨{ name := "read_skill_resource"
              args := .adict [("skill_name", "skill-a"),
                              ("file_path", "../secret.txt")], id := "2" },
      by simp, ?_⟩
    rfl

/-- C10: `read_skill_resource` does not require the skill to be loaded or
activated: when the name is absent from `skill_loaders` (and hence from any
`loadedSkills`/`activeSkills` bookkeeping) but present in the discovered
catalog, the handler resolves it through the catalog-fallback and proceeds
to the sandboxed read with the catalog metadata — it never produces the
unknown-skill message. -/
theorem handleReadSkillResource_catalog_fallback (fs : Fs) (toolId : String)
    (md : List DiscoveredSkill) (loaders : List (String × DiscoveredSkill))
    (m : List (String × String)) (sn fp : String) (meta : DiscoveredSkill)
    (hsn : m.lookup "skill_name" = some sn)
    (hfp : m.lookup "file_path" = some fp)
    (hsne : sn ≠ "") (hfpe : fp ≠ "")
    (hnotloaded : loaders.lookup sn = none)
    (hcat : md.find? (fun x => x.name == sn) = some meta) :
    handleReadSkillResource fs (.adict m) toolId md loaders =
      readWithMeta fs meta sn fp toolId := by
  unfold handleReadSkillResource
  simp only [hsn, hfp]
  rw [if_neg (by simp [hsne, hfpe])]
  rw [hnotloaded]
  simp only [hcat]

/-- C10 (witness): with nothing active, loaded or instantiated, a read of
`template.txt` from the catalog skill `skill-a` succeeds with the file
contents. -/
theorem handleReadSkillResource_catalog_fallback_witness :
    handleReadSkillResource [(["skills", "skill-a", "template.txt"], .file "TPL")]
      (.adict [("skill_name", "skill-a"), ("file_path", "template.txt")]) "7"
      [{ name := "skill-a", description := "d", license := none
         compatibility := none, tools := none, metadata := []
         path := "p", skillDir := ["skills", "skill-a"], hasScripts := false
         hasReferences := false, hasAssets := false }]
      [] =
      .ok ⟨"TPL", "7", "read_skill_resource"⟩ := by
  rw [handleReadSkillResource_catalog_fallback
    [(["skills", "skill-a", "template.txt"], .file "TPL")] "7"
    [{ name := "skill-a", description := "d", license := none
       compatibility := none, tools := none, metadata := []
       path := "p", skillDir := ["skills", "skill-a"], hasScripts := false
       hasReferences := false, hasAssets := false }]
    [] [("skill_name", "skill-a"), ("file_path", "template.txt")]
    "skill-a" "template.txt"
    { name := "skill-a", description := "d", license := none
      compatibility := none, tools := none, metadata := []
      path := "p", skillDir := ["skills", "skill-a"], hasScripts := false
      hasReferences := false, hasAssets := false }
    rfl rfl (by decide) (by decide) rfl rfl]
  rfl

/-! ## `graph/builder.py` + `agent.py`: the per-turn step budget -/

/-- The nodes of the supervisor graph (builder.py lines 166-260). -/
inductive GNode where
  | loadConfig
  | discoverNode
  | supervisorN
  | worker (skillName : String)
  | workerTools (skillName : String)
  | endNode
deriving DecidableEq, Repr

/-- The state slice the routing edges read and the supervisor writes. -/
structure TurnState where
  next : Option String
  previousSpecialist : Option String
deriving DecidableEq, Repr

/-- The model outputs a turn consumes, indexed by the step at which they are
requested: the supervisor's decision and whether a worker generation carries
tool calls (`worker_should_continue`'s condition). -/
structure TurnOracle where
  decide : Nat → LlmDecision
  workerRequestsTools : Nat → Bool

/-- One superstep of the compiled supervisor graph (builder.py lines
214-260): the initialization chain, the supervisor with its conditional
routing via `route_supervisor`, each worker's conditional edge via
`worker_should_continue`, and the tools→worker back edge. -/
def graphStep (md : List DiscoveredSkill) (o : TurnOracle) (i : Nat) :
    GNode → TurnState → GNode × TurnState
  | .loadConfig, s => (.discoverNode, s)
  | .discoverNode, s => (.supervisorN, s)
  | .supervisorN, s =>
    let upd := supervisorNode md s.previousSpecialist (o.decide i)
    let s2 : TurnState :=
      { next := some upd.next, previousSpecialist := upd.previousSpecialist }
    let target := routeSupervisor s2.next
    (if target = "end" then .endNode else .worker target, s2)
  | .worker nm, s =>
    (if o.workerRequestsTools i then .workerTools nm else .supervisorN, s)
  | .workerTools nm, s => (.worker nm, s)
  | .endNode, s => (.endNode, s)

/-- A turn's outcome: regular completion, or the explicit budget signal. -/
inductive TurnOutcome where
  | finished (s : TurnState)
  | stepBudgetExceeded
deriving DecidableEq, Repr

/-- Modelled from the spec: the per-turn step budget of §5 — the graph
executor (LangGraph's `recursion_limit`, enforced outside this repository's
sources) runs supersteps until the `END` node, and past the budget fails the
turn with the explicit step-budget signal (`GraphRecursionError`), never
silently truncating. -/
def runGraphAux (md : List DiscoveredSkill) (o : TurnOracle) :
    Nat → Nat → GNode → TurnState → TurnOutcome
  | 0, _, _, _ => .stepBudgetExceeded
  | fuel + 1, i, n, s =>
    match n with
    | .endNode => .finished s
    | .loadConfig =>
      runGraphAux md o fuel (i + 1) (graphStep md o i .loadConfig s).1
        (graphStep md o i .loadConfig s).2
    | .discoverNode =>
      runGraphAux md o fuel (i + 1) (graphStep md o i .discoverNode s).1
        (graphStep md o i .discoverNode s).2
    | .supervisorN =>
      runGraphAux md o fuel (i + 1) (graphStep md o i .supervisorN s).1
        (graphStep md o i .supervisorN s).2
    | .worker nm =>
      runGraphAux md o fuel (i + 1) (graphStep md o i (.worker nm) s).1
        (graphStep md o i (.worker nm) s).2
    | .workerTools nm =>
      runGraphAux md o fuel (i + 1) (graphStep md o i (.workerTools nm) s).1
        (graphStep md o i (.workerTools nm) s).2

/-- `Agent.run`'s per-turn budget: `"recursion_limit": 100` (agent.py line
115). -/
def recursionLimit : Nat := 100

/-- One user turn through the supervisor graph under the step budget. -/
def runTurn (md : List DiscoveredSkill) (o : TurnOracle) (s : TurnState) :
    TurnOutcome :=
  runGraphAux md o recursionLimit 0 .loadConfig s

/-- The unbudgeted transition: absorbing at `END`. -/
def stepT (md : List DiscoveredSkill) (o : TurnOracle)
    (t : Nat × GNode × TurnState) : Nat × GNode × TurnState :=
  if t.2.1 = GNode.endNode then t
  else (t.1 + 1, (graphStep md o t.1 t.2.1 t.2.2).1, (graphStep md o t.1 t.2.1 t.2.2).2)

/-- The unbudgeted trace of the graph. -/
def traceT (md : List DiscoveredSkill) (o : TurnOracle) :
    Nat → Nat × GNode × TurnState → Nat × GNode × TurnState
  | 0, t => t
  | k + 1, t => traceT md o k (stepT md o t)

theorem traceT_succ (md : List DiscoveredSkill) (o : TurnOracle) (k : Nat)
    (t : Nat × GNode × TurnState) :
    traceT md o (k + 1) t = traceT md o k (stepT md o t) := rfl

/-- C8: the budgeted runner fails with the explicit step-budget outcome
exactly when the graph does not reach `END` within the budget — so every
turn either completes or ends in the distinguishable budget signal, never an
unbounded supervisor/worker loop; and a supervisor that keeps re-routing to
the same worker exhausts the budget of 100 while a finishing decision
completes. -/
theorem runTurn_step_budget :
    (∀ (md : List DiscoveredSkill) (o : TurnOracle) (fuel i : Nat)
        (n : GNode) (s : TurnState),
      runGraphAux md o fuel i n s = .stepBudgetExceeded ↔
        ∀ k, k < fuel → (traceT md o k (i, n, s)).2.1 ≠ GNode.endNode) ∧
    runTurn
      [{ name := "skill-a", description := "d", license := none
         compatibility := none, tools := none, metadata := []
         path := "p", skillDir := ["skills", "skill-a"], hasScripts := false
         hasReferences := false, hasAssets := false }]
      { decide := fun _ => .structured "skill-a" "keep going"
        workerRequestsTools := fun _ => false }
      { next := none, previousSpecialist := none } = .stepBudgetExceeded ∧
    runTurn
      [{ name := "skill-a", description := "d", license := none
         compatibility := none, tools := none, metadata := []
         path := "p", skillDir := ["skills", "skill-a"], hasScripts := false
         hasReferences := false, hasAssets := false }]
      { decide := fun _ => .structured "FINISH" "done"
        workerRequestsTools := fun _ => false }
      { next := none, previousSpecialist := none } =
      .finished { next := some "FINISH", previousSpecialist := none } := by
  refine ⟨?_, by decide, by decide⟩
  intro md o fuel
  induction fuel with
  | zero =>
    intro i n s
    constructor
    · intro _ k hk
      exact absurd hk (Nat.not_lt_zero k)
    · intro _
      rfl
  | succ fuel ih =>
    intro i n s
    by_cases hend : n = GNode.endNode
    · subst hend
      constructor
      · intro h
        exact absurd h (by simp [runGraphAux])
      · intro h
        exact absurd (show (traceT md o 0 (i, GNode.endNode, s)).2.1 =
          GNode.endNode from rfl) (h 0 (Nat.succ_pos fuel))
    · have hstep : runGraphAux md o (fuel + 1) i n s =
          runGraphAux md o fuel (i + 1) (graphStep md o i n s).1
            (graphStep md o i n s).2 := by
        cases n with
        | endNode => exact absurd rfl hend
        | loadConfig => rfl
        | discoverNode => rfl
        | supervisorN => rfl
        | worker nm => rfl
        | workerTools nm => rfl
      have hstept : stepT md o (i, n, s) =
          (i + 1, (graphStep md o i n s).1, (graphStep md o i n s).2) := by
        unfold stepT
        rw [if_neg hend]
      constructor
      · intro h k hk
        cases k with
        | zero => exact hend
        | succ k =>
          rw [traceT_succ, hstept]
          have := (ih (i + 1) (graphStep md o i n s).1 (graphStep md o i n s).2).mp
            (by rw [← hstep]; exact h)
          exact this k (Nat.lt_of_succ_lt_succ hk)
      · intro h
        rw [hstep]
        apply (ih (i + 1) (graphStep md o i n s).1 (graphStep md o i n s).2).mpr
        intro k hk
        have := h (k + 1) (Nat.succ_lt_succ hk)
        rw [traceT_succ, hstept] at this
        exact this

/-- C8 (witness): instantiating the budget characterization at fuel 0 — a
zero budget reports the explicit signal because no step reaches `END`. -/
theorem runTurn_step_budget_witness :
    runGraphAux [] { decide := fun _ => .structured "FINISH" "r"
                     workerRequestsTools := fun _ => false }
      0 0 .loadConfig { next := none, previousSpecialist := none } =
      .stepBudgetExceeded := by
  apply (runTurn_step_budget.1 [] _ 0 0 .loadConfig
    { next := none, previousSpecialist := none }).mpr
  intro k hk
  exact absurd hk (Nat.not_lt_zero k)

end AgentsWithIntent
